import Mathlib

/-!
Shallow embedding of the Sakila → analytics star-schema synchronizer
(`src/index.ts` of db-assignment-4): calendar derivation, key-map based
upserts, watermarked incremental passes, the full load and the validation
report, together with proofs of the specification's testable properties.

Conventions of the embedding:
* JavaScript `Date` values are modelled as milliseconds since the Unix
  epoch (`Nat`), interpreted in UTC; the calendar date of a timestamp is
  its epoch-day number `t / msPerDay`.
* `Map.get` returning `undefined` is modelled as `Option.none`; JavaScript
  truthiness tests on looked-up keys (`if (existingKey)`,
  `filter(b => b.filmKey && b.actorKey)`) treat both `undefined` and `0`
  as false, which the embedding mirrors.
* TypeORM `save` upserts by primary key, `insert` appends rows; generated
  surrogate keys are drawn from per-table counters carried in the state.
-/

/-- Milliseconds per civil day. -/
def msPerDay : Nat := 86400000

/-- Gregorian leap-year test (as performed by the JS `Date` machinery). -/
def isLeap (y : Nat) : Bool := (y % 4 == 0 && y % 100 != 0) || y % 400 == 0

/-- Number of days of the civil year `y`. -/
def daysInYear (y : Nat) : Nat := if isLeap y then 366 else 365

/-- Split a 0-based day-of-year (`doy < daysInYear`) into the civil month
(1–12) and 1-based day-of-month. -/
def monthDayOfYear (leap : Bool) (doy : Nat) : Nat × Nat :=
  let feb := if leap then 29 else 28
  if doy < 31 then (1, doy + 1)
  else if doy < 31 + feb then (2, doy - 31 + 1)
  else if doy < 62 + feb then (3, doy - (31 + feb) + 1)
  else if doy < 92 + feb then (4, doy - (62 + feb) + 1)
  else if doy < 123 + feb then (5, doy - (92 + feb) + 1)
  else if doy < 153 + feb then (6, doy - (123 + feb) + 1)
  else if doy < 184 + feb then (7, doy - (153 + feb) + 1)
  else if doy < 215 + feb then (8, doy - (184 + feb) + 1)
  else if doy < 245 + feb then (9, doy - (215 + feb) + 1)
  else if doy < 276 + feb then (10, doy - (245 + feb) + 1)
  else if doy < 306 + feb then (11, doy - (276 + feb) + 1)
  else (12, doy - (306 + feb) + 1)

/-- 0-based day-of-year of a civil month/day pair. -/
def doyOfMonthDay (leap : Bool) (m d : Nat) : Nat :=
  let feb := if leap then 29 else 28
  (if m = 1 then 0 else if m = 2 then 31 else if m = 3 then 31 + feb
   else if m = 4 then 62 + feb else if m = 5 then 92 + feb
   else if m = 6 then 123 + feb else if m = 7 then 153 + feb
   else if m = 8 then 184 + feb else if m = 9 then 215 + feb
   else if m = 10 then 245 + feb else if m = 11 then 276 + feb
   else 306 + feb) + (d - 1)

/-- Fuel-driven year scan: starting at year `y`, peel whole years off the
day count `n`; returns the year reached and the remaining day-of-year.
The fuel is always chosen `> n`, which suffices since every year has at
least 365 days. -/
def splitYearAux : Nat → Nat → Nat → Nat × Nat
  | 0, y, n => (y, n)
  | fuel + 1, y, n =>
    if n < daysInYear y then (y, n)
    else splitYearAux fuel (y + 1) (n - daysInYear y)

def splitYear (y n : Nat) : Nat × Nat := splitYearAux (n + 1) y n

/-- Total days of the year range `[y, y + k)`. -/
def daysUpTo (y : Nat) : Nat → Nat
  | 0 => 0
  | k + 1 => daysUpTo y k + daysInYear (y + k)

/-- Civil date `(year, month, day)` of epoch day `n` (1970-01-01 is day 0),
in UTC, as exposed by the JS `Date` accessors. -/
def civilFromDays (n : Nat) : Nat × Nat × Nat :=
  let p := splitYear 1970 n
  let md := monthDayOfYear (isLeap p.1) p.2
  (p.1, md.1, md.2)

/-- Epoch day of a civil date (inverse of `civilFromDays`). -/
def daysFromCivil (y m d : Nat) : Nat :=
  daysUpTo 1970 (y - 1970) + doyOfMonthDay (isLeap y) m d

/-- The `YYYYMMDD` integer key of an epoch day, as computed by `dateToKey`
(src/index.ts:19): the year, zero-padded month and zero-padded day
concatenated as decimal digits. -/
def dateKeyOfDay (n : Nat) : Nat :=
  (civilFromDays n).1 * 10000 + (civilFromDays n).2.1 * 100 + (civilFromDays n).2.2

/-- `dateToKey` (src/index.ts:19) on a nullable JS date. -/
def dateToKey : Option Nat → Option Nat
  | none => none
  | some t => some (dateKeyOfDay (t / msPerDay))

/-- A row of `dim_date` (analytics.models.ts); the ISO date string is
modelled by the epoch-day number it denotes. -/
structure DimDate where
  dateKey : Nat
  date : Nat
  year : Nat
  quarter : Nat
  month : Nat
  dayOfMonth : Nat
  dayOfWeek : Nat
  isWeekend : Bool
deriving DecidableEq

/-- `createDimDate` (src/index.ts:31) on a JS date given in ms since epoch.
Epoch day 0 (1970-01-01) was a Thursday, hence `(day + 4) % 7` with the
JS convention 0 = Sunday. -/
def createDimDate (t : Nat) : DimDate :=
  let day := t / msPerDay
  let c := civilFromDays day
  let dow := (day + 4) % 7
  { dateKey := dateKeyOfDay day
    date := day
    year := c.1
    month := c.2.1
    dayOfMonth := c.2.2
    dayOfWeek := dow
    isWeekend := dow == 0 || dow == 6
    quarter := if c.2.1 ≤ 3 then 1 else if c.2.1 ≤ 6 then 2
               else if c.2.1 ≤ 9 then 3 else 4 }

/-- `getDaysBetween` (src/index.ts:55): null if either endpoint is null,
else `Math.ceil(Math.abs(end - start) / msPerDay)`. -/
def getDaysBetween : Option Nat → Option Nat → Option Nat
  | none, _ => none
  | some _, none => none
  | some s, some e => some ((((e : Int) - (s : Int)).natAbs + (msPerDay - 1)) / msPerDay)

theorem daysInYear_pos (y : Nat) : 0 < daysInYear y := by
  unfold daysInYear; split <;> omega

theorem daysInYear_ge (y : Nat) : 365 ≤ daysInYear y := by
  unfold daysInYear; split <;> omega

theorem daysUpTo_succ_left (y k : Nat) :
    daysUpTo y (k + 1) = daysInYear y + daysUpTo (y + 1) k := by
  induction k with
  | zero => simp [daysUpTo]
  | succ k ih =>
    have harg : y + (k + 1) = (y + 1) + k := by omega
    calc daysUpTo y (k + 2) = daysUpTo y (k + 1) + daysInYear (y + (k + 1)) := rfl
      _ = daysInYear y + daysUpTo (y + 1) k + daysInYear ((y + 1) + k) := by rw [ih, harg]
      _ = daysInYear y + daysUpTo (y + 1) (k + 1) := by simp [daysUpTo]; omega

/-- The month/day split of a day-of-year is in range and inverts
`doyOfMonthDay`. -/
def mdOk (leap : Bool) (doy : Nat) : Prop :=
  1 ≤ (monthDayOfYear leap doy).1 ∧ (monthDayOfYear leap doy).1 ≤ 12 ∧
  1 ≤ (monthDayOfYear leap doy).2 ∧ (monthDayOfYear leap doy).2 ≤ 31 ∧
  doyOfMonthDay leap (monthDayOfYear leap doy).1 (monthDayOfYear leap doy).2 = doy

instance (leap : Bool) (doy : Nat) : Decidable (mdOk leap doy) := by
  unfold mdOk; infer_instance

set_option maxRecDepth 10000 in
theorem mdOk_true : ∀ doy < 366, mdOk true doy := by decide

set_option maxRecDepth 10000 in
theorem mdOk_false : ∀ doy < 365, mdOk false doy := by decide

theorem monthDayOfYear_spec (leap : Bool) (doy : Nat)
    (h : doy < if leap then 366 else 365) :
    1 ≤ (monthDayOfYear leap doy).1 ∧ (monthDayOfYear leap doy).1 ≤ 12 ∧
    1 ≤ (monthDayOfYear leap doy).2 ∧ (monthDayOfYear leap doy).2 ≤ 31 ∧
    doyOfMonthDay leap (monthDayOfYear leap doy).1 (monthDayOfYear leap doy).2 = doy := by
  cases leap
  · exact mdOk_false doy (by simpa using h)
  · exact mdOk_true doy (by simpa using h)

theorem splitYearAux_spec (fuel : Nat) : ∀ y n, n < fuel →
    y ≤ (splitYearAux fuel y n).1 ∧
    (splitYearAux fuel y n).2 < daysInYear (splitYearAux fuel y n).1 ∧
    daysUpTo y ((splitYearAux fuel y n).1 - y) + (splitYearAux fuel y n).2 = n := by
  induction fuel with
  | zero => intro y n h; omega
  | succ f ih =>
    intro y n h
    simp only [splitYearAux]
    split_ifs with hlt
    · exact ⟨Nat.le_refl y, by simpa using hlt, by simp [daysUpTo]⟩
    · have hy := daysInYear_ge y
      have h1 : n - daysInYear y < f := by omega
      obtain ⟨a, b, c⟩ := ih (y + 1) (n - daysInYear y) h1
      refine ⟨by omega, b, ?_⟩
      have hk : (splitYearAux f (y + 1) (n - daysInYear y)).1 - y
          = ((splitYearAux f (y + 1) (n - daysInYear y)).1 - (y + 1)) + 1 := by omega
      rw [hk, daysUpTo_succ_left]
      omega

theorem splitYear_spec (y n : Nat) :
    y ≤ (splitYear y n).1 ∧
    (splitYear y n).2 < daysInYear (splitYear y n).1 ∧
    daysUpTo y ((splitYear y n).1 - y) + (splitYear y n).2 = n :=
  splitYearAux_spec (n + 1) y n (Nat.lt_succ_self n)

/-- Bounds and round-trip of the civil-date decomposition. -/
theorem civilFromDays_spec (n : Nat) :
    1970 ≤ (civilFromDays n).1 ∧
    1 ≤ (civilFromDays n).2.1 ∧ (civilFromDays n).2.1 ≤ 12 ∧
    1 ≤ (civilFromDays n).2.2 ∧ (civilFromDays n).2.2 ≤ 31 ∧
    daysFromCivil (civilFromDays n).1 (civilFromDays n).2.1 (civilFromDays n).2.2 = n := by
  obtain ⟨hy, hd, hsum⟩ := splitYear_spec 1970 n
  have hd' : (splitYear 1970 n).2 < if isLeap (splitYear 1970 n).1 then 366 else 365 := by
    simpa [daysInYear] using hd
  obtain ⟨m1, m2, d1, d2, rt⟩ := monthDayOfYear_spec (isLeap (splitYear 1970 n).1)
    (splitYear 1970 n).2 hd'
  refine ⟨hy, m1, m2, d1, d2, ?_⟩
  simp only [civilFromDays, daysFromCivil]
  rw [rt]
  exact hsum

theorem civilFromDays_injective {a b : Nat} (h : civilFromDays a = civilFromDays b) :
    a = b := by
  have ha := (civilFromDays_spec a).2.2.2.2.2
  have hb := (civilFromDays_spec b).2.2.2.2.2
  rw [h] at ha
  omega

theorem dateKeyOfDay_injective {a b : Nat} (h : dateKeyOfDay a = dateKeyOfDay b) :
    a = b := by
  obtain ⟨_, am1, am2, ad1, ad2, _⟩ := civilFromDays_spec a
  obtain ⟨_, bm1, bm2, bd1, bd2, _⟩ := civilFromDays_spec b
  unfold dateKeyOfDay at h
  have hy : (civilFromDays a).1 = (civilFromDays b).1 := by omega
  have hm : (civilFromDays a).2.1 = (civilFromDays b).2.1 := by omega
  have hd : (civilFromDays a).2.2 = (civilFromDays b).2.2 := by omega
  exact civilFromDays_injective (by
    have := Prod.ext_iff.mpr ⟨hm, hd⟩
    exact Prod.ext_iff.mpr ⟨hy, this⟩)

/-! ## Data model

The five business dimensions share one shape: a generated surrogate key, a
natural key from the source, a per-dimension attribute record and a
`last_update` timestamp.  `DimRow α` models one row of `dim_actor`,
`dim_category`, `dim_store`, `dim_customer` or `dim_film`
(analytics.models.ts), with `α` the dimension-specific attributes;
`SrcRow α` models the corresponding source-table row (joins needed for
denormalized attributes, e.g. store → address → city → country, are taken
as already flattened into the attribute record, as the eager-loading
`find` calls of src/index.ts produce them). -/

structure SrcRow (α : Type) where
  natId : Nat
  attrs : α
  lastUpdate : Nat
deriving DecidableEq

structure DimRow (α : Type) where
  key : Nat
  natId : Nat
  attrs : α
  lastUpdate : Nat
deriving DecidableEq

structure ActorAttrs where
  firstName : String
  lastName : String
deriving DecidableEq

structure CategoryAttrs where
  name : String
deriving DecidableEq

structure StoreAttrs where
  city : String
  country : String
deriving DecidableEq

/-- Source customer attributes; `active` is the numeric flag of the source
schema, compared with `=== 1` by the transform. -/
structure SrcCustomerAttrs where
  firstName : String
  lastName : String
  active : Nat
  city : String
  country : String
deriving DecidableEq

structure CustomerAttrs where
  firstName : String
  lastName : String
  active : Bool
  city : String
  country : String
deriving DecidableEq

/-- Source film attributes; `language` is the eagerly loaded relation,
absent when the film has no language row. -/
structure SrcFilmAttrs where
  title : String
  rating : Option String
  length : Option Nat
  language : Option String
  releaseYear : Option Nat
deriving DecidableEq

structure FilmAttrs where
  title : String
  rating : Option String
  length : Option Nat
  language : String
  releaseYear : Option Nat
deriving DecidableEq

/-- The per-dimension transforms of src/index.ts (fields are copied; the
customer's flag becomes `active === 1`, a film without language row gets
the documented fallback `"Unknown"`). -/
def actorTransform (a : ActorAttrs) : ActorAttrs := a
def categoryTransform (a : CategoryAttrs) : CategoryAttrs := a
def storeTransform (a : StoreAttrs) : StoreAttrs := a

def customerTransform (a : SrcCustomerAttrs) : CustomerAttrs :=
  { firstName := a.firstName, lastName := a.lastName, active := a.active == 1
    city := a.city, country := a.country }

def filmTransform (a : SrcFilmAttrs) : FilmAttrs :=
  { title := a.title, rating := a.rating, length := a.length
    language := a.language.getD "Unknown", releaseYear := a.releaseYear }

/-- A source `film_actor` association row. -/
structure SrcFilmActor where
  filmId : Nat
  actorId : Nat
  lastUpdate : Nat
deriving DecidableEq

/-- A source `film_category` association row. -/
structure SrcFilmCategory where
  filmId : Nat
  categoryId : Nat
  lastUpdate : Nat
deriving DecidableEq

/-- A source `rental` row with its eagerly loaded `inventory` and
`inventory.store` relations flattened. -/
structure SrcRental where
  rentalId : Nat
  rentalDate : Nat
  returnDate : Option Nat
  customerId : Nat
  inventoryFilmId : Nat
  inventoryStoreId : Nat
  staffId : Nat
  lastUpdate : Nat
deriving DecidableEq

/-- A source `payment` row with its eagerly loaded `staff` relation
flattened (`staffStoreId` is `payment.staff.storeId`); `amount` is exact
currency in hundredths. -/
structure SrcPayment where
  paymentId : Nat
  paymentDate : Nat
  customerId : Nat
  staffStoreId : Nat
  staffId : Nat
  amount : Int
  lastUpdate : Nat
deriving DecidableEq

/-- The operational (MySQL) store, read-only for the synchronizer. -/
structure SourceDB where
  actors : List (SrcRow ActorAttrs)
  categories : List (SrcRow CategoryAttrs)
  stores : List (SrcRow StoreAttrs)
  customers : List (SrcRow SrcCustomerAttrs)
  films : List (SrcRow SrcFilmAttrs)
  filmActors : List SrcFilmActor
  filmCategories : List SrcFilmCategory
  rentals : List SrcRental
  payments : List SrcPayment
deriving DecidableEq

structure BridgeFilmActor where
  filmKey : Nat
  actorKey : Nat
deriving DecidableEq

structure BridgeFilmCategory where
  filmKey : Nat
  categoryKey : Nat
deriving DecidableEq

structure FactRental where
  factRentalKey : Nat
  rentalId : Nat
  dateKeyRented : Nat
  dateKeyReturned : Option Nat
  filmKey : Nat
  storeKey : Nat
  customerKey : Nat
  staffId : Nat
  rentalDurationDays : Option Nat
deriving DecidableEq

structure FactPayment where
  factPaymentKey : Nat
  paymentId : Nat
  dateKeyPaid : Nat
  customerKey : Nat
  storeKey : Nat
  staffId : Nat
  amount : Int
deriving DecidableEq

/-- A row of the `sync_state` watermark table. -/
structure SyncRow where
  tableName : String
  lastRun : Nat
deriving DecidableEq

/-- The analytical (SQLite) store, plus the per-table autoincrement
counters from which generated surrogate keys are drawn. -/
structure Target where
  dimActor : List (DimRow ActorAttrs)
  dimCategory : List (DimRow CategoryAttrs)
  dimStore : List (DimRow StoreAttrs)
  dimCustomer : List (DimRow CustomerAttrs)
  dimFilm : List (DimRow FilmAttrs)
  dimDate : List DimDate
  bridgeFilmActor : List BridgeFilmActor
  bridgeFilmCategory : List BridgeFilmCategory
  factRental : List FactRental
  factPayment : List FactPayment
  syncState : List SyncRow
  nextActorKey : Nat
  nextCategoryKey : Nat
  nextStoreKey : Nat
  nextCustomerKey : Nat
  nextFilmKey : Nat
  nextFactRentalKey : Nat
  nextFactPaymentKey : Nat
deriving DecidableEq

/-! ## Key maps and repository primitives -/

/-- Lookup in a key map built by successive `Map.set` calls: the binding
set last wins.  `none` models JavaScript `undefined`. -/
def mget (m : List (Nat × Nat)) (k : Nat) : Option Nat :=
  match m with
  | [] => none
  | p :: rest =>
    match mget rest k with
    | some v => some v
    | none => if p.1 == k then some p.2 else none

/-- The key map a `forEach(r => map.set(naturalKey, surrogateKey))` pass
over a dimension builds. -/
def keyMapOf {α : Type} (dim : List (DimRow α)) : List (Nat × Nat) :=
  dim.map (fun r => (r.natId, r.key))

/-- JavaScript truthiness of a looked-up key: `undefined` and `0` are
falsy. -/
def jsKey (o : Option Nat) : Option Nat :=
  match o with
  | some k => if k == 0 then none else some k
  | none => none

/-- `findOneBy({ tableName })` on `sync_state`. -/
def findSync (ss : List SyncRow) (name : String) : Option Nat :=
  (ss.find? (fun r => r.tableName == name)).map (fun r => r.lastRun)

/-- The watermark read: `lastSync ? lastSync.lastRun : new Date(0)`. -/
def getWm (ss : List SyncRow) (name : String) : Nat :=
  (findSync ss name).getD 0

/-- `syncStateRepo.save({ tableName, lastRun })`: upsert by the primary
key `tableName`. -/
def saveSync (ss : List SyncRow) (name : String) (t : Nat) : List SyncRow :=
  if ss.any (fun r => r.tableName == name) then
    ss.map (fun r => if r.tableName == name then ⟨name, t⟩ else r)
  else ss ++ [⟨name, t⟩]

/-- TypeORM `save` of one dimension entity: with its primary key set the
row is updated in place (inserted with that key if, exceptionally, it is
absent); without a key the row is inserted under a freshly generated key.
Returns the new table, the new counter and the key the saved entity ended
up with. -/
def saveDimRow {α : Type} (dim : List (DimRow α)) (next : Nat) (key? : Option Nat)
    (natId : Nat) (attrs : α) (lu : Nat) : List (DimRow α) × Nat × Nat :=
  match key? with
  | some k =>
    if dim.any (fun r => r.key == k) then
      (dim.map (fun r => if r.key == k then ⟨k, natId, attrs, lu⟩ else r), next, k)
    else
      (dim ++ [⟨k, natId, attrs, lu⟩], max next (k + 1), k)
  | none => (dim ++ [⟨next, natId, attrs, lu⟩], next + 1, next)

/-- `repo.save(entitiesToSave)`: the entities are written one after the
other; the list of `(naturalKey, surrogateKey)` pairs of the saved
entities is returned for the key-map refresh. -/
def runDimSave {α : Type} : List (DimRow α) → Nat → List (Option Nat × Nat × α × Nat) →
    List (DimRow α) × Nat × List (Nat × Nat)
  | dim, next, [] => (dim, next, [])
  | dim, next, (k?, id, a, lu) :: rest =>
    let s := saveDimRow dim next k? id a lu
    let r := runDimSave s.1 s.2.1 rest
    (r.1, r.2.1, (id, s.2.2) :: r.2.2)

/-! ## Dimension synchronizer (incremental mode)

One block of the `incremental` command (src/index.ts:392–553), identical
for the five dimensions up to the transform: select the source rows whose
`lastUpdate` exceeds the watermark, carry an existing surrogate key
forward where the key map has one, save, and extend the key map with the
saved pairs. -/

def syncDim {α β : Type} (t : α → β) (src : List (SrcRow α)) (wm : Nat)
    (dim : List (DimRow β)) (next : Nat) (kmap : List (Nat × Nat)) :
    List (DimRow β) × Nat × List (Nat × Nat) :=
  let changed := src.filter (fun s => wm < s.lastUpdate)
  if changed.isEmpty then (dim, next, kmap)
  else
    let toSave := changed.map (fun s =>
      (jsKey (mget kmap s.natId), s.natId, t s.attrs, s.lastUpdate))
    let r := runDimSave dim next toSave
    (r.1, r.2.1, kmap ++ r.2.2)

/-! ## Date-dimension synchronizer (incremental mode)

src/index.ts:556–594: collect the distinct calendar dates of rentals
changed since the date watermark (rental and return date) and of payments
dated after it, then insert those whose `dateKey` is neither in the target
nor already produced in this pass.  A JS `Set` keeps insertion order. -/

def addDate (s : List Nat) (d : Nat) : List Nat :=
  if s.contains d then s else s ++ [d]

/-- `dim_date` is saved by its primary key `dateKey` (upsert). -/
def saveDimDate (dd : List DimDate) (row : DimDate) : List DimDate :=
  if dd.any (fun r => r.dateKey == row.dateKey) then
    dd.map (fun r => if r.dateKey == row.dateKey then row else r)
  else dd ++ [row]

/-- The loop of src/index.ts:578–586: derive a `DimDate` for every
collected day whose key is neither already in the target nor produced
earlier in this pass (the key set is extended as rows are derived). -/
def buildNewDates (days : List Nat) (acc : List DimDate × List Nat) :
    List DimDate × List Nat :=
  days.foldl (fun acc day =>
    let key := dateKeyOfDay day
    if acc.2.contains key then acc
    else (acc.1 ++ [createDimDate (day * msPerDay)], acc.2 ++ [key])) acc

def datePass (rentals : List SrcRental) (payments : List SrcPayment) (wm : Nat)
    (dimDate : List DimDate) : List DimDate :=
  let newRentalDates := rentals.filter (fun r => wm < r.lastUpdate)
  let newPaymentDates := payments.filter (fun p => wm < p.paymentDate)
  let s0 := newRentalDates.foldl (fun s r =>
    let s1 := addDate s (r.rentalDate / msPerDay)
    match r.returnDate with
    | some rd => addDate s1 (rd / msPerDay)
    | none => s1) []
  let dateSet := newPaymentDates.foldl (fun s p => addDate s (p.paymentDate / msPerDay)) s0
  let existing0 := dimDate.map (fun d => d.dateKey)
  let step := buildNewDates dateSet ([], existing0)
  step.1.foldl (fun dd row => saveDimDate dd row) dimDate

/-! ## Bridge synchronizer (incremental mode)

src/index.ts:601–649: resolve both natural keys, drop pairs with a falsy
component, save under the composite primary key (an existing pair is
overwritten in place, i.e. unchanged — the bridge has no other columns).
No warning is emitted for dropped pairs. -/

def saveBridgeFA (b : List BridgeFilmActor) (fk ak : Nat) : List BridgeFilmActor :=
  if b.any (fun r => r.filmKey == fk && r.actorKey == ak) then b
  else b ++ [⟨fk, ak⟩]

def saveBridgeFC (b : List BridgeFilmCategory) (fk ck : Nat) : List BridgeFilmCategory :=
  if b.any (fun r => r.filmKey == fk && r.categoryKey == ck) then b
  else b ++ [⟨fk, ck⟩]

/-- The film-actor pairs a pass saves: changed source rows, resolved, with
falsy (unresolved) components filtered out. -/
def bridgeFAToSave (src : List SrcFilmActor) (wm : Nat)
    (filmMap actorMap : List (Nat × Nat)) : List (Nat × Nat) :=
  ((src.filter (fun s => wm < s.lastUpdate)).map (fun s =>
    ((mget filmMap s.filmId).getD 0, (mget actorMap s.actorId).getD 0))).filter
    (fun p => p.1 != 0 && p.2 != 0)

def bridgeFAPass (src : List SrcFilmActor) (wm : Nat)
    (filmMap actorMap : List (Nat × Nat)) (b : List BridgeFilmActor) :
    List BridgeFilmActor :=
  if (src.filter (fun s => wm < s.lastUpdate)).isEmpty then b
  else (bridgeFAToSave src wm filmMap actorMap).foldl
    (fun acc p => saveBridgeFA acc p.1 p.2) b

def bridgeFCToSave (src : List SrcFilmCategory) (wm : Nat)
    (filmMap categoryMap : List (Nat × Nat)) : List (Nat × Nat) :=
  ((src.filter (fun s => wm < s.lastUpdate)).map (fun s =>
    ((mget filmMap s.filmId).getD 0, (mget categoryMap s.categoryId).getD 0))).filter
    (fun p => p.1 != 0 && p.2 != 0)

def bridgeFCPass (src : List SrcFilmCategory) (wm : Nat)
    (filmMap categoryMap : List (Nat × Nat)) (b : List BridgeFilmCategory) :
    List BridgeFilmCategory :=
  if (src.filter (fun s => wm < s.lastUpdate)).isEmpty then b
  else (bridgeFCToSave src wm filmMap categoryMap).foldl
    (fun acc p => saveBridgeFC acc p.1 p.2) b

/-! ## Fact synchronizers (incremental mode) -/

/-- Incremental change detection for `fact_rental` (src/index.ts:658–664):
an array of `where` clauses is an OR — the rental is selected when its
`rentalDate` or its `lastUpdate` exceeds the watermark. -/
def rentalChanged (wm : Nat) (r : SrcRental) : Bool :=
  wm < r.rentalDate || wm < r.lastUpdate

/-- Incremental change detection for `fact_payment` (src/index.ts:705–709):
payments are treated as immutable, only `paymentDate` is consulted. -/
def paymentChanged (wm : Nat) (p : SrcPayment) : Bool :=
  wm < p.paymentDate

/-- `fact.customerKey && fact.filmKey && fact.storeKey` after the key-map
lookups (src/index.ts:686). -/
def rentalResolved (cm fm sm : List (Nat × Nat)) (r : SrcRental) : Bool :=
  ((mget cm r.customerId).getD 0 != 0) && ((mget fm r.inventoryFilmId).getD 0 != 0) &&
    ((mget sm r.inventoryStoreId).getD 0 != 0)

def paymentResolved (cm sm : List (Nat × Nat)) (p : SrcPayment) : Bool :=
  ((mget cm p.customerId).getD 0 != 0) && ((mget sm p.staffStoreId).getD 0 != 0)

/-- The fact entity built for one source rental (src/index.ts:669–679),
before the primary key is possibly carried over from an existing fact. -/
def mkFactRental (cm fm sm : List (Nat × Nat)) (r : SrcRental) (key : Nat) : FactRental :=
  { factRentalKey := key
    rentalId := r.rentalId
    dateKeyRented := (dateToKey (some r.rentalDate)).getD 0
    dateKeyReturned := dateToKey r.returnDate
    customerKey := (mget cm r.customerId).getD 0
    filmKey := (mget fm r.inventoryFilmId).getD 0
    storeKey := (mget sm r.inventoryStoreId).getD 0
    staffId := r.staffId
    rentalDurationDays := getDaysBetween (some r.rentalDate) r.returnDate }

def mkFactPayment (cm sm : List (Nat × Nat)) (p : SrcPayment) (key : Nat) : FactPayment :=
  { factPaymentKey := key
    paymentId := p.paymentId
    dateKeyPaid := (dateToKey (some p.paymentDate)).getD 0
    customerKey := (mget cm p.customerId).getD 0
    storeKey := (mget sm p.staffStoreId).getD 0
    staffId := p.staffId
    amount := p.amount }

/-- TypeORM `save` of one fact entity (update in place when the primary
key was carried over, insert under a generated key otherwise). -/
def saveFactRental (facts : List FactRental) (next : Nat) (key? : Option Nat)
    (row : Nat → FactRental) : List FactRental × Nat :=
  match key? with
  | some k =>
    if facts.any (fun f => f.factRentalKey == k) then
      (facts.map (fun f => if f.factRentalKey == k then row k else f), next)
    else (facts ++ [row k], max next (k + 1))
  | none => (facts ++ [row next], next + 1)

def saveFactPayment (facts : List FactPayment) (next : Nat) (key? : Option Nat)
    (row : Nat → FactPayment) : List FactPayment × Nat :=
  match key? with
  | some k =>
    if facts.any (fun f => f.factPaymentKey == k) then
      (facts.map (fun f => if f.factPaymentKey == k then row k else f), next)
    else (facts ++ [row k], max next (k + 1))
  | none => (facts ++ [row next], next + 1)

/-- The rentals a pass persists: the changed window minus the rows whose
key resolution failed. -/
def factRentalToSave (src : List SrcRental) (wm : Nat)
    (cm fm sm : List (Nat × Nat)) : List SrcRental :=
  (src.filter (rentalChanged wm)).filter (rentalResolved cm fm sm)

/-- One `console.warn` per changed rental with a missing foreign key
(src/index.ts:689). -/
def factRentalSkipCount (src : List SrcRental) (wm : Nat)
    (cm fm sm : List (Nat × Nat)) : Nat :=
  ((src.filter (rentalChanged wm)).filter
    (fun r => !(rentalResolved cm fm sm r))).length

def factRentalPass (src : List SrcRental) (wm : Nat) (cm fm sm : List (Nat × Nat))
    (facts0 : List FactRental) (next0 : Nat) : List FactRental × Nat × Nat :=
  if (src.filter (rentalChanged wm)).isEmpty then (facts0, next0, 0)
  else
    let r := (factRentalToSave src wm cm fm sm).foldl
      (fun (acc : List FactRental × Nat) rr =>
        let key? := (facts0.find? (fun f => f.rentalId == rr.rentalId)).map
          (fun f => f.factRentalKey)
        saveFactRental acc.1 acc.2 key? (mkFactRental cm fm sm rr)) (facts0, next0)
    (r.1, r.2, factRentalSkipCount src wm cm fm sm)

def factPaymentToSave (src : List SrcPayment) (wm : Nat)
    (cm sm : List (Nat × Nat)) : List SrcPayment :=
  (src.filter (paymentChanged wm)).filter (paymentResolved cm sm)

/-- One `console.warn` per new payment with a missing foreign key
(src/index.ts:734). -/
def factPaymentSkipCount (src : List SrcPayment) (wm : Nat)
    (cm sm : List (Nat × Nat)) : Nat :=
  ((src.filter (paymentChanged wm)).filter
    (fun p => !(paymentResolved cm sm p))).length

def factPaymentPass (src : List SrcPayment) (wm : Nat) (cm sm : List (Nat × Nat))
    (facts0 : List FactPayment) (next0 : Nat) : List FactPayment × Nat × Nat :=
  if (src.filter (paymentChanged wm)).isEmpty then (facts0, next0, 0)
  else
    let r := (factPaymentToSave src wm cm sm).foldl
      (fun (acc : List FactPayment × Nat) pp =>
        let key? := (facts0.find? (fun f => f.paymentId == pp.paymentId)).map
          (fun f => f.factPaymentKey)
        saveFactPayment acc.1 acc.2 key? (mkFactPayment cm sm pp)) (facts0, next0)
    (r.1, r.2, factPaymentSkipCount src wm cm sm)

/-! ## The `incremental` command

The run is a fixed sequence of per-table steps inside one transaction.
Every `new Date()` evaluated during the run is a point of real time; the
`Schedule` records, per table, when its source read was issued (`read`)
and the value of the `new Date()` stored as its watermark (`stamp`, taken
after the table's processing, src/index.ts:421 etc.).  The read times do
not influence the computation — the run works on the snapshot `SourceDB`
it is handed — but they name the instants the spec's watermark discussion
refers to. -/

structure TableTimes where
  read : Nat
  stamp : Nat
deriving DecidableEq

structure Schedule where
  actor : TableTimes
  category : TableTimes
  store : TableTimes
  customer : TableTimes
  film : TableTimes
  dimDate : TableTimes
  bridgeFA : TableTimes
  bridgeFC : TableTimes
  factRental : TableTimes
  factPayment : TableTimes
deriving DecidableEq

/-- The in-flight state of an incremental run: the target plus the five
process-local key maps built at run start and extended after each
dimension save, plus the warnings emitted so far. -/
structure RunState where
  T : Target
  amap : List (Nat × Nat)
  catmap : List (Nat × Nat)
  smap : List (Nat × Nat)
  custmap : List (Nat × Nat)
  fmap : List (Nat × Nat)
  warnings : Nat
deriving DecidableEq

def actorStep (db : SourceDB) (sched : Schedule) (st : RunState) : RunState :=
  let wm := getWm st.T.syncState "actor"
  let r := syncDim actorTransform db.actors wm st.T.dimActor st.T.nextActorKey st.amap
  { st with
    T := { st.T with
           dimActor := r.1
           nextActorKey := r.2.1
           syncState := saveSync st.T.syncState "actor" sched.actor.stamp }
    amap := r.2.2 }

def categoryStep (db : SourceDB) (sched : Schedule) (st : RunState) : RunState :=
  let wm := getWm st.T.syncState "category"
  let r := syncDim categoryTransform db.categories wm st.T.dimCategory
    st.T.nextCategoryKey st.catmap
  { st with
    T := { st.T with
           dimCategory := r.1
           nextCategoryKey := r.2.1
           syncState := saveSync st.T.syncState "category" sched.category.stamp }
    catmap := r.2.2 }

def storeStep (db : SourceDB) (sched : Schedule) (st : RunState) : RunState :=
  let wm := getWm st.T.syncState "store"
  let r := syncDim storeTransform db.stores wm st.T.dimStore st.T.nextStoreKey st.smap
  { st with
    T := { st.T with
           dimStore := r.1
           nextStoreKey := r.2.1
           syncState := saveSync st.T.syncState "store" sched.store.stamp }
    smap := r.2.2 }

def customerStep (db : SourceDB) (sched : Schedule) (st : RunState) : RunState :=
  let wm := getWm st.T.syncState "customer"
  let r := syncDim customerTransform db.customers wm st.T.dimCustomer
    st.T.nextCustomerKey st.custmap
  { st with
    T := { st.T with
           dimCustomer := r.1
           nextCustomerKey := r.2.1
           syncState := saveSync st.T.syncState "customer" sched.customer.stamp }
    custmap := r.2.2 }

def filmStep (db : SourceDB) (sched : Schedule) (st : RunState) : RunState :=
  let wm := getWm st.T.syncState "film"
  let r := syncDim filmTransform db.films wm st.T.dimFilm st.T.nextFilmKey st.fmap
  { st with
    T := { st.T with
           dimFilm := r.1
           nextFilmKey := r.2.1
           syncState := saveSync st.T.syncState "film" sched.film.stamp }
    fmap := r.2.2 }

def dateStep (db : SourceDB) (sched : Schedule) (st : RunState) : RunState :=
  let wm := getWm st.T.syncState "dim_date_sync"
  { st with
    T := { st.T with
           dimDate := datePass db.rentals db.payments wm st.T.dimDate
           syncState := saveSync st.T.syncState "dim_date_sync" sched.dimDate.stamp } }

def bridgeFAStep (db : SourceDB) (sched : Schedule) (st : RunState) : RunState :=
  let wm := getWm st.T.syncState "bridge_film_actor"
  { st with
    T := { st.T with
           bridgeFilmActor := bridgeFAPass db.filmActors wm st.fmap st.amap
             st.T.bridgeFilmActor
           syncState := saveSync st.T.syncState "bridge_film_actor" sched.bridgeFA.stamp } }

def bridgeFCStep (db : SourceDB) (sched : Schedule) (st : RunState) : RunState :=
  let wm := getWm st.T.syncState "bridge_film_category"
  { st with
    T := { st.T with
           bridgeFilmCategory := bridgeFCPass db.filmCategories wm st.fmap st.catmap
             st.T.bridgeFilmCategory
           syncState := saveSync st.T.syncState "bridge_film_category" sched.bridgeFC.stamp } }

def factRentalStep (db : SourceDB) (sched : Schedule) (st : RunState) : RunState :=
  let wm := getWm st.T.syncState "fact_rental"
  let r := factRentalPass db.rentals wm st.custmap st.fmap st.smap
    st.T.factRental st.T.nextFactRentalKey
  { st with
    T := { st.T with
           factRental := r.1
           nextFactRentalKey := r.2.1
           syncState := saveSync st.T.syncState "fact_rental" sched.factRental.stamp }
    warnings := st.warnings + r.2.2 }

def factPaymentStep (db : SourceDB) (sched : Schedule) (st : RunState) : RunState :=
  let wm := getWm st.T.syncState "fact_payment"
  let r := factPaymentPass db.payments wm st.custmap st.smap
    st.T.factPayment st.T.nextFactPaymentKey
  { st with
    T := { st.T with
           factPayment := r.1
           nextFactPaymentKey := r.2.1
           syncState := saveSync st.T.syncState "fact_payment" sched.factPayment.stamp }
    warnings := st.warnings + r.2.2 }

/-- The `incremental` command (src/index.ts:356–755): build the key maps
from the current target, then run the dimension, date, bridge and fact
steps in order, each advancing its watermark. -/
def incremental (db : SourceDB) (T : Target) (sched : Schedule) : RunState :=
  let st0 : RunState :=
    { T := T
      amap := keyMapOf T.dimActor
      catmap := keyMapOf T.dimCategory
      smap := keyMapOf T.dimStore
      custmap := keyMapOf T.dimCustomer
      fmap := keyMapOf T.dimFilm
      warnings := 0 }
  factPaymentStep db sched (factRentalStep db sched (bridgeFCStep db sched
    (bridgeFAStep db sched (dateStep db sched (filmStep db sched
      (customerStep db sched (storeStep db sched (categoryStep db sched
        (actorStep db sched st0)))))))))

/-! ## The `full-load` command

src/index.ts:81–352: bulk-insert every dimension, rebuild the key maps
from the target, insert the filtered bridges and facts, and initialize
every watermark to one shared `new Date()` taken after the loads. -/

/-- `repo.insert(rows)` for a dimension: plain inserts under generated
keys. -/
def insertDims {α β : Type} (t : α → β) (src : List (SrcRow α))
    (dim : List (DimRow β)) (next : Nat) : List (DimRow β) × Nat :=
  src.foldl (fun acc s => (acc.1 ++ [⟨acc.2, s.natId, t s.attrs, s.lastUpdate⟩], acc.2 + 1))
    (dim, next)

/-- The distinct calendar dates of all rental, return and payment
timestamps, in first-appearance order (src/index.ts:182–198). -/
def fullLoadDateSet (rentals : List SrcRental) (payments : List SrcPayment) : List Nat :=
  let s0 := rentals.foldl (fun s r =>
    let s1 := addDate s (r.rentalDate / msPerDay)
    match r.returnDate with
    | some rd => addDate s1 (rd / msPerDay)
    | none => s1) []
  payments.foldl (fun s p => addDate s (p.paymentDate / msPerDay)) s0

def fullLoad (db : SourceDB) (T : Target) (now : Nat) : Target :=
  let ra := insertDims actorTransform db.actors T.dimActor T.nextActorKey
  let rc := insertDims categoryTransform db.categories T.dimCategory T.nextCategoryKey
  let rs := insertDims storeTransform db.stores T.dimStore T.nextStoreKey
  let ru := insertDims customerTransform db.customers T.dimCustomer T.nextCustomerKey
  let rf := insertDims filmTransform db.films T.dimFilm T.nextFilmKey
  let dimDate' := (fullLoadDateSet db.rentals db.payments).foldl
    (fun dd day => saveDimDate dd (createDimDate (day * msPerDay))) T.dimDate
  let am := keyMapOf ra.1
  let cm := keyMapOf rc.1
  let sm := keyMapOf rs.1
  let um := keyMapOf ru.1
  let fm := keyMapOf rf.1
  let bfa := ((db.filmActors.map (fun s =>
      ((mget fm s.filmId).getD 0, (mget am s.actorId).getD 0))).filter
      (fun p => p.1 != 0 && p.2 != 0)).map (fun p => BridgeFilmActor.mk p.1 p.2)
  let bfc := ((db.filmCategories.map (fun s =>
      ((mget fm s.filmId).getD 0, (mget cm s.categoryId).getD 0))).filter
      (fun p => p.1 != 0 && p.2 != 0)).map (fun p => BridgeFilmCategory.mk p.1 p.2)
  let fr := (db.rentals.filter (rentalResolved um fm sm)).foldl
    (fun (acc : List FactRental × Nat) r =>
      (acc.1 ++ [mkFactRental um fm sm r acc.2], acc.2 + 1))
    (T.factRental, T.nextFactRentalKey)
  let fp := (db.payments.filter (paymentResolved um sm)).foldl
    (fun (acc : List FactPayment × Nat) p =>
      (acc.1 ++ [mkFactPayment um sm p acc.2], acc.2 + 1))
    (T.factPayment, T.nextFactPaymentKey)
  let names := ["actor", "category", "store", "customer", "film", "dim_date_sync",
    "bridge_film_actor", "bridge_film_category", "fact_rental", "fact_payment"]
  { dimActor := ra.1, nextActorKey := ra.2
    dimCategory := rc.1, nextCategoryKey := rc.2
    dimStore := rs.1, nextStoreKey := rs.2
    dimCustomer := ru.1, nextCustomerKey := ru.2
    dimFilm := rf.1, nextFilmKey := rf.2
    dimDate := dimDate'
    bridgeFilmActor := T.bridgeFilmActor ++ bfa
    bridgeFilmCategory := T.bridgeFilmCategory ++ bfc
    factRental := fr.1, nextFactRentalKey := fr.2
    factPayment := fp.1, nextFactPaymentKey := fp.2
    syncState := names.foldl (fun ss n => saveSync ss n now) T.syncState }

/-! ## The `validate` command

src/index.ts:758–928: over a trailing window (everything after a cutoff
taken 30 days before "now"), compare payment count, payment sum, rental
count and per-store revenue between the stores.  The source side filters
on raw timestamps; the target side joins each fact to `dim_date` and
compares the date (modelled by its epoch-day number) with the cutoff's
date string.  SQL `SUM` over an empty set is `NULL`; both sides then
render as the string `"NaN"` and compare equal, which `sqlSum = none`
mirrors. -/

def sqlSum (l : List Int) : Option Int :=
  if l.isEmpty then none else some l.sum

/-- `fact_payment INNER JOIN dim_date ON dateKeyPaid = dateKey WHERE
dim_date.date > cutoff`, one result row per matching pair. -/
def paymentDateJoin (T : Target) (cutDay : Nat) : List FactPayment :=
  T.factPayment.flatMap (fun f =>
    (T.dimDate.filter (fun d => d.dateKey == f.dateKeyPaid && cutDay < d.date)).map
      (fun _ => f))

def rentalDateJoin (T : Target) (cutDay : Nat) : List FactRental :=
  T.factRental.flatMap (fun f =>
    (T.dimDate.filter (fun d => d.dateKey == f.dateKeyRented && cutDay < d.date)).map
      (fun _ => f))

def insertSortedDistinct (x : Nat) : List Nat → List Nat
  | [] => [x]
  | y :: ys => if x < y then x :: y :: ys else if x == y then y :: ys
               else y :: insertSortedDistinct x ys

/-- `GROUP BY ... ORDER BY` key list: the distinct values, ascending. -/
def sortedDistinct (l : List Nat) : List Nat :=
  l.foldl (fun acc x => insertSortedDistinct x acc) []

/-- Source revenue per store: payments in the window joined to their
staff's store, grouped by store id (src/index.ts:860–869). -/
def srcStoreRevenue (db : SourceDB) (cutoffMs : Nat) : List (Nat × Int) :=
  let rows := db.payments.filter (fun p => cutoffMs < p.paymentDate)
  (sortedDistinct (rows.map (fun p => p.staffStoreId))).map
    (fun i => (i, ((rows.filter (fun p => p.staffStoreId == i)).map (fun p => p.amount)).sum))

/-- Target join rows `(storeId, amount)` of
`fact_payment ⋈ dim_store ⋈ dim_date` within the window. -/
def tgtStoreJoinRows (T : Target) (cutDay : Nat) : List (Nat × Int) :=
  T.factPayment.flatMap (fun f =>
    (T.dimStore.filter (fun s => s.key == f.storeKey)).flatMap (fun s =>
      (T.dimDate.filter (fun d => d.dateKey == f.dateKeyPaid && cutDay < d.date)).map
        (fun _ => (s.natId, f.amount))))

def tgtStoreRevenue (T : Target) (cutDay : Nat) : List (Nat × Int) :=
  let rows := tgtStoreJoinRows T cutDay
  (sortedDistinct (rows.map Prod.fst)).map
    (fun i => (i, ((rows.filter (fun r => r.1 == i)).map Prod.snd).sum))

/-- The grouped comparison of src/index.ts:890–901: lengths must agree and
every source group must find a target group with the same store id and
sum. -/
def storeRevenueMatches (src tgt : List (Nat × Int)) : Bool :=
  src.length == tgt.length &&
    src.all (fun g => match tgt.find? (fun t => t.1 == g.1) with
      | some t => t.2 == g.2
      | none => false)

structure ValidateResult where
  sourcePaymentCount : Nat
  targetPaymentCount : Nat
  paymentCountPassed : Bool
  paymentSumPassed : Bool
  rentalCountPassed : Bool
  storeRevenuePassed : Bool
  errorsFound : Nat
deriving DecidableEq

/-- The `validate` command. `cutoffMs` is the "thirty days ago" instant;
its calendar day stands for the `YYYY-MM-DD` string compared against
`dim_date.date`. -/
def validate (db : SourceDB) (T : Target) (cutoffMs : Nat) : ValidateResult :=
  let cutDay := cutoffMs / msPerDay
  let srcPayCount := (db.payments.filter (fun p => cutoffMs < p.paymentDate)).length
  let tgtPayCount := (paymentDateJoin T cutDay).length
  let payCountOk := srcPayCount == tgtPayCount
  let srcSum := sqlSum ((db.payments.filter (fun p => cutoffMs < p.paymentDate)).map
    (fun p => p.amount))
  let tgtSum := sqlSum ((paymentDateJoin T cutDay).map (fun f => f.amount))
  let sumOk := srcSum == tgtSum
  let srcRentCount := (db.rentals.filter (fun r => cutoffMs < r.rentalDate)).length
  let tgtRentCount := (rentalDateJoin T cutDay).length
  let rentOk := srcRentCount == tgtRentCount
  let storeOk := storeRevenueMatches (srcStoreRevenue db cutoffMs) (tgtStoreRevenue T cutDay)
  { sourcePaymentCount := srcPayCount
    targetPaymentCount := tgtPayCount
    paymentCountPassed := payCountOk
    paymentSumPassed := sumOk
    rentalCountPassed := rentOk
    storeRevenuePassed := storeOk
    errorsFound := (if payCountOk then 0 else 1) + (if sumOk then 0 else 1) +
      (if rentOk then 0 else 1) + (if storeOk then 0 else 1) }

/-! ## Run anatomy: watermark plumbing -/

theorem find_subst_self (ss : List SyncRow) (n : String) (t : Nat)
    (h : ss.any (fun r => r.tableName == n) = true) :
    (ss.map (fun r => if r.tableName == n then SyncRow.mk n t else r)).find?
      (fun r => r.tableName == n) = some (SyncRow.mk n t) := by
  induction ss with
  | nil => simp at h
  | cons r rest ih =>
    simp only [List.map_cons]
    by_cases hr : r.tableName = n
    · rw [if_pos (beq_iff_eq.mpr hr), List.find?_cons_of_pos _ (by simp)]
    · rw [if_neg (by simpa using hr),
        List.find?_cons_of_neg _ (by simpa using hr)]
      exact ih (by simpa [hr] using h)

theorem find_subst_ne (ss : List SyncRow) (n n' : String) (t : Nat) (h : n' ≠ n) :
    (ss.map (fun r => if r.tableName == n then SyncRow.mk n t else r)).find?
      (fun r => r.tableName == n') = ss.find? (fun r => r.tableName == n') := by
  induction ss with
  | nil => simp
  | cons r rest ih =>
    simp only [List.map_cons]
    by_cases hr : r.tableName = n
    · have h2 : ¬(r.tableName = n') := by rw [hr]; exact fun hc => h hc.symm
      rw [if_pos (beq_iff_eq.mpr hr),
        List.find?_cons_of_neg _ (by simp; exact fun hc => h hc.symm),
        List.find?_cons_of_neg _ (by simpa using h2)]
      exact ih
    · rw [if_neg (by simpa using hr)]
      by_cases hr' : r.tableName = n'
      · rw [List.find?_cons_of_pos _ (by simpa using hr'),
          List.find?_cons_of_pos _ (by simpa using hr')]
      · rw [List.find?_cons_of_neg _ (by simpa using hr'),
          List.find?_cons_of_neg _ (by simpa using hr')]
        exact ih

theorem find_append_single_self (ss : List SyncRow) (n : String) (t : Nat)
    (h : ss.any (fun r => r.tableName == n) = false) :
    (ss ++ [SyncRow.mk n t]).find? (fun r => r.tableName == n) = some (SyncRow.mk n t) := by
  induction ss with
  | nil => simp
  | cons r rest ih =>
    simp only [List.any_cons, Bool.or_eq_false_iff] at h
    simp only [List.cons_append]
    rw [List.find?_cons_of_neg _ (by simpa using h.1)]
    exact ih h.2

theorem find_append_single_ne (ss : List SyncRow) (n n' : String) (t : Nat)
    (h : n' ≠ n) :
    (ss ++ [SyncRow.mk n t]).find? (fun r => r.tableName == n') =
      ss.find? (fun r => r.tableName == n') := by
  induction ss with
  | nil =>
    simp only [List.nil_append, List.find?_nil]
    rw [List.find?_cons_of_neg _ (by simp; exact fun hc => h hc.symm), List.find?_nil]
  | cons r rest ih =>
    simp only [List.cons_append]
    by_cases hr : r.tableName = n'
    · rw [List.find?_cons_of_pos _ (by simpa using hr),
        List.find?_cons_of_pos _ (by simpa using hr)]
    · rw [List.find?_cons_of_neg _ (by simpa using hr),
        List.find?_cons_of_neg _ (by simpa using hr)]
      exact ih

theorem findSync_saveSync_self (ss : List SyncRow) (n : String) (t : Nat) :
    findSync (saveSync ss n t) n = some t := by
  unfold saveSync
  split_ifs with h
  · simp only [findSync]
    rw [find_subst_self ss n t h]
    rfl
  · simp only [findSync]
    rw [find_append_single_self ss n t (by simpa using h)]
    rfl

theorem findSync_saveSync_ne (ss : List SyncRow) (n n' : String) (t : Nat)
    (h : n' ≠ n) : findSync (saveSync ss n t) n' = findSync ss n' := by
  unfold saveSync
  split_ifs with hmem
  · simp only [findSync]
    rw [find_subst_ne ss n n' t h]
  · simp only [findSync]
    rw [find_append_single_ne ss n n' t h]

theorem getWm_saveSync_self (ss : List SyncRow) (n : String) (t : Nat) :
    getWm (saveSync ss n t) n = t := by
  simp [getWm, findSync_saveSync_self]

theorem getWm_saveSync_ne (ss : List SyncRow) (n n' : String) (t : Nat)
    (h : n' ≠ n) : getWm (saveSync ss n t) n' = getWm ss n' := by
  simp [getWm, findSync_saveSync_ne ss n n' t h]

/-! ## Run anatomy: each pass of `incremental` as a function of the
initial target -/

def actorRun (db : SourceDB) (T : Target) :=
  syncDim actorTransform db.actors (getWm T.syncState "actor") T.dimActor
    T.nextActorKey (keyMapOf T.dimActor)

def categoryRun (db : SourceDB) (T : Target) :=
  syncDim categoryTransform db.categories (getWm T.syncState "category") T.dimCategory
    T.nextCategoryKey (keyMapOf T.dimCategory)

def storeRun (db : SourceDB) (T : Target) :=
  syncDim storeTransform db.stores (getWm T.syncState "store") T.dimStore
    T.nextStoreKey (keyMapOf T.dimStore)

def customerRun (db : SourceDB) (T : Target) :=
  syncDim customerTransform db.customers (getWm T.syncState "customer") T.dimCustomer
    T.nextCustomerKey (keyMapOf T.dimCustomer)

def filmRun (db : SourceDB) (T : Target) :=
  syncDim filmTransform db.films (getWm T.syncState "film") T.dimFilm
    T.nextFilmKey (keyMapOf T.dimFilm)

def dateRun (db : SourceDB) (T : Target) : List DimDate :=
  datePass db.rentals db.payments (getWm T.syncState "dim_date_sync") T.dimDate

def bridgeFARun (db : SourceDB) (T : Target) : List BridgeFilmActor :=
  bridgeFAPass db.filmActors (getWm T.syncState "bridge_film_actor")
    (filmRun db T).2.2 (actorRun db T).2.2 T.bridgeFilmActor

def bridgeFCRun (db : SourceDB) (T : Target) : List BridgeFilmCategory :=
  bridgeFCPass db.filmCategories (getWm T.syncState "bridge_film_category")
    (filmRun db T).2.2 (categoryRun db T).2.2 T.bridgeFilmCategory

def factRentalRun (db : SourceDB) (T : Target) :=
  factRentalPass db.rentals (getWm T.syncState "fact_rental")
    (customerRun db T).2.2 (filmRun db T).2.2 (storeRun db T).2.2
    T.factRental T.nextFactRentalKey

def factPaymentRun (db : SourceDB) (T : Target) :=
  factPaymentPass db.payments (getWm T.syncState "fact_payment")
    (customerRun db T).2.2 (storeRun db T).2.2 T.factPayment T.nextFactPaymentKey

theorem incremental_dimActor (db : SourceDB) (T : Target) (sched : Schedule) :
    (incremental db T sched).T.dimActor = (actorRun db T).1 := by
  simp only [incremental, actorStep, categoryStep, storeStep, customerStep, filmStep,
    dateStep, bridgeFAStep, bridgeFCStep, factRentalStep, factPaymentStep, actorRun]

theorem incremental_amap (db : SourceDB) (T : Target) (sched : Schedule) :
    (incremental db T sched).amap = (actorRun db T).2.2 := by
  simp only [incremental, actorStep, categoryStep, storeStep, customerStep, filmStep,
    dateStep, bridgeFAStep, bridgeFCStep, factRentalStep, factPaymentStep, actorRun]

theorem incremental_dimCategory (db : SourceDB) (T : Target) (sched : Schedule) :
    (incremental db T sched).T.dimCategory = (categoryRun db T).1 := by
  simp only [incremental, actorStep, categoryStep, storeStep, customerStep, filmStep,
    dateStep, bridgeFAStep, bridgeFCStep, factRentalStep, factPaymentStep, categoryRun]
  rw [getWm_saveSync_ne _ _ _ _ (by decide)]

theorem incremental_catmap (db : SourceDB) (T : Target) (sched : Schedule) :
    (incremental db T sched).catmap = (categoryRun db T).2.2 := by
  simp only [incremental, actorStep, categoryStep, storeStep, customerStep, filmStep,
    dateStep, bridgeFAStep, bridgeFCStep, factRentalStep, factPaymentStep, categoryRun]
  repeat rw [getWm_saveSync_ne _ _ _ _ (by decide)]

theorem incremental_dimStore (db : SourceDB) (T : Target) (sched : Schedule) :
    (incremental db T sched).T.dimStore = (storeRun db T).1 := by
  simp only [incremental, actorStep, categoryStep, storeStep, customerStep, filmStep,
    dateStep, bridgeFAStep, bridgeFCStep, factRentalStep, factPaymentStep, storeRun]
  repeat rw [getWm_saveSync_ne _ _ _ _ (by decide)]

theorem incremental_smap (db : SourceDB) (T : Target) (sched : Schedule) :
    (incremental db T sched).smap = (storeRun db T).2.2 := by
  simp only [incremental, actorStep, categoryStep, storeStep, customerStep, filmStep,
    dateStep, bridgeFAStep, bridgeFCStep, factRentalStep, factPaymentStep, storeRun]
  repeat rw [getWm_saveSync_ne _ _ _ _ (by decide)]

theorem incremental_dimCustomer (db : SourceDB) (T : Target) (sched : Schedule) :
    (incremental db T sched).T.dimCustomer = (customerRun db T).1 := by
  simp only [incremental, actorStep, categoryStep, storeStep, customerStep, filmStep,
    dateStep, bridgeFAStep, bridgeFCStep, factRentalStep, factPaymentStep, customerRun]
  repeat rw [getWm_saveSync_ne _ _ _ _ (by decide)]

theorem incremental_custmap (db : SourceDB) (T : Target) (sched : Schedule) :
    (incremental db T sched).custmap = (customerRun db T).2.2 := by
  simp only [incremental, actorStep, categoryStep, storeStep, customerStep, filmStep,
    dateStep, bridgeFAStep, bridgeFCStep, factRentalStep, factPaymentStep, customerRun]
  repeat rw [getWm_saveSync_ne _ _ _ _ (by decide)]

theorem incremental_dimFilm (db : SourceDB) (T : Target) (sched : Schedule) :
    (incremental db T sched).T.dimFilm = (filmRun db T).1 := by
  simp only [incremental, actorStep, categoryStep, storeStep, customerStep, filmStep,
    dateStep, bridgeFAStep, bridgeFCStep, factRentalStep, factPaymentStep, filmRun]
  repeat rw [getWm_saveSync_ne _ _ _ _ (by decide)]

theorem incremental_fmap (db : SourceDB) (T : Target) (sched : Schedule) :
    (incremental db T sched).fmap = (filmRun db T).2.2 := by
  simp only [incremental, actorStep, categoryStep, storeStep, customerStep, filmStep,
    dateStep, bridgeFAStep, bridgeFCStep, factRentalStep, factPaymentStep, filmRun]
  repeat rw [getWm_saveSync_ne _ _ _ _ (by decide)]

theorem incremental_dimDate (db : SourceDB) (T : Target) (sched : Schedule) :
    (incremental db T sched).T.dimDate = dateRun db T := by
  simp only [incremental, actorStep, categoryStep, storeStep, customerStep, filmStep,
    dateStep, bridgeFAStep, bridgeFCStep, factRentalStep, factPaymentStep, dateRun]
  repeat rw [getWm_saveSync_ne _ _ _ _ (by decide)]

theorem incremental_bridgeFA (db : SourceDB) (T : Target) (sched : Schedule) :
    (incremental db T sched).T.bridgeFilmActor = bridgeFARun db T := by
  simp only [incremental, actorStep, categoryStep, storeStep, customerStep, filmStep,
    dateStep, bridgeFAStep, bridgeFCStep, factRentalStep, factPaymentStep, bridgeFARun, actorRun, filmRun]
  repeat rw [getWm_saveSync_ne _ _ _ _ (by decide)]

theorem incremental_bridgeFC (db : SourceDB) (T : Target) (sched : Schedule) :
    (incremental db T sched).T.bridgeFilmCategory = bridgeFCRun db T := by
  simp only [incremental, actorStep, categoryStep, storeStep, customerStep, filmStep,
    dateStep, bridgeFAStep, bridgeFCStep, factRentalStep, factPaymentStep, bridgeFCRun, categoryRun, filmRun]
  repeat rw [getWm_saveSync_ne _ _ _ _ (by decide)]

theorem incremental_factRental (db : SourceDB) (T : Target) (sched : Schedule) :
    (incremental db T sched).T.factRental = (factRentalRun db T).1 := by
  simp only [incremental, actorStep, categoryStep, storeStep, customerStep, filmStep,
    dateStep, bridgeFAStep, bridgeFCStep, factRentalStep, factPaymentStep, factRentalRun, customerRun, filmRun, storeRun]
  repeat rw [getWm_saveSync_ne _ _ _ _ (by decide)]

theorem incremental_factPayment (db : SourceDB) (T : Target) (sched : Schedule) :
    (incremental db T sched).T.factPayment = (factPaymentRun db T).1 := by
  simp only [incremental, actorStep, categoryStep, storeStep, customerStep, filmStep,
    dateStep, bridgeFAStep, bridgeFCStep, factRentalStep, factPaymentStep, factPaymentRun, customerRun, storeRun]
  repeat rw [getWm_saveSync_ne _ _ _ _ (by decide)]

theorem incremental_warnings (db : SourceDB) (T : Target) (sched : Schedule) :
    (incremental db T sched).warnings = (factRentalRun db T).2.2 + (factPaymentRun db T).2.2 := by
  simp only [incremental, actorStep, categoryStep, storeStep, customerStep, filmStep,
    dateStep, bridgeFAStep, bridgeFCStep, factRentalStep, factPaymentStep, factRentalRun, factPaymentRun, customerRun, filmRun, storeRun]
  repeat rw [getWm_saveSync_ne _ _ _ _ (by decide)]
  rw [Nat.zero_add]

theorem incremental_syncState (db : SourceDB) (T : Target) (sched : Schedule) :
    (incremental db T sched).T.syncState =
      saveSync (saveSync (saveSync (saveSync (saveSync (saveSync (saveSync (saveSync
        (saveSync (saveSync T.syncState "actor" sched.actor.stamp)
        "category" sched.category.stamp) "store" sched.store.stamp)
        "customer" sched.customer.stamp) "film" sched.film.stamp)
        "dim_date_sync" sched.dimDate.stamp) "bridge_film_actor" sched.bridgeFA.stamp)
        "bridge_film_category" sched.bridgeFC.stamp) "fact_rental" sched.factRental.stamp)
        "fact_payment" sched.factPayment.stamp := by
  simp only [incremental, actorStep, categoryStep, storeStep, customerStep, filmStep,
    dateStep, bridgeFAStep, bridgeFCStep, factRentalStep, factPaymentStep]

theorem incremental_wm_actor (db : SourceDB) (T : Target) (sched : Schedule) :
    getWm (incremental db T sched).T.syncState "actor" = sched.actor.stamp := by
  rw [incremental_syncState]
  repeat rw [getWm_saveSync_ne _ _ _ _ (by decide)]
  rw [getWm_saveSync_self]

theorem incremental_wm_category (db : SourceDB) (T : Target) (sched : Schedule) :
    getWm (incremental db T sched).T.syncState "category" = sched.category.stamp := by
  rw [incremental_syncState]
  repeat rw [getWm_saveSync_ne _ _ _ _ (by decide)]
  rw [getWm_saveSync_self]

theorem incremental_wm_store (db : SourceDB) (T : Target) (sched : Schedule) :
    getWm (incremental db T sched).T.syncState "store" = sched.store.stamp := by
  rw [incremental_syncState]
  repeat rw [getWm_saveSync_ne _ _ _ _ (by decide)]
  rw [getWm_saveSync_self]

theorem incremental_wm_customer (db : SourceDB) (T : Target) (sched : Schedule) :
    getWm (incremental db T sched).T.syncState "customer" = sched.customer.stamp := by
  rw [incremental_syncState]
  repeat rw [getWm_saveSync_ne _ _ _ _ (by decide)]
  rw [getWm_saveSync_self]

theorem incremental_wm_film (db : SourceDB) (T : Target) (sched : Schedule) :
    getWm (incremental db T sched).T.syncState "film" = sched.film.stamp := by
  rw [incremental_syncState]
  repeat rw [getWm_saveSync_ne _ _ _ _ (by decide)]
  rw [getWm_saveSync_self]

theorem incremental_wm_dimDate (db : SourceDB) (T : Target) (sched : Schedule) :
    getWm (incremental db T sched).T.syncState "dim_date_sync" = sched.dimDate.stamp := by
  rw [incremental_syncState]
  repeat rw [getWm_saveSync_ne _ _ _ _ (by decide)]
  rw [getWm_saveSync_self]

theorem incremental_wm_bridgeFA (db : SourceDB) (T : Target) (sched : Schedule) :
    getWm (incremental db T sched).T.syncState "bridge_film_actor" = sched.bridgeFA.stamp := by
  rw [incremental_syncState]
  repeat rw [getWm_saveSync_ne _ _ _ _ (by decide)]
  rw [getWm_saveSync_self]

theorem incremental_wm_bridgeFC (db : SourceDB) (T : Target) (sched : Schedule) :
    getWm (incremental db T sched).T.syncState "bridge_film_category" = sched.bridgeFC.stamp := by
  rw [incremental_syncState]
  repeat rw [getWm_saveSync_ne _ _ _ _ (by decide)]
  rw [getWm_saveSync_self]

theorem incremental_wm_factRental (db : SourceDB) (T : Target) (sched : Schedule) :
    getWm (incremental db T sched).T.syncState "fact_rental" = sched.factRental.stamp := by
  rw [incremental_syncState]
  repeat rw [getWm_saveSync_ne _ _ _ _ (by decide)]
  rw [getWm_saveSync_self]

theorem incremental_wm_factPayment (db : SourceDB) (T : Target) (sched : Schedule) :
    getWm (incremental db T sched).T.syncState "fact_payment" = sched.factPayment.stamp := by
  rw [incremental_syncState, getWm_saveSync_self]

/-! ## Passes over an unchanged window are no-ops -/

theorem syncDim_quiet {α β : Type} (t : α → β) (src : List (SrcRow α)) (wm : Nat)
    (dim : List (DimRow β)) (next : Nat) (kmap : List (Nat × Nat))
    (h : ∀ s ∈ src, s.lastUpdate ≤ wm) :
    syncDim t src wm dim next kmap = (dim, next, kmap) := by
  unfold syncDim
  have hf : src.filter (fun s => wm < s.lastUpdate) = [] := by
    rw [List.filter_eq_nil_iff]
    intro s hs
    simpa using h s hs
  simp [hf]

theorem datePass_quiet (rentals : List SrcRental) (payments : List SrcPayment)
    (wm : Nat) (dd : List DimDate)
    (hr : ∀ r ∈ rentals, r.lastUpdate ≤ wm)
    (hp : ∀ p ∈ payments, p.paymentDate ≤ wm) :
    datePass rentals payments wm dd = dd := by
  unfold datePass
  have hfr : rentals.filter (fun r => wm < r.lastUpdate) = [] := by
    rw [List.filter_eq_nil_iff]; intro r hrr; simpa using hr r hrr
  have hfp : payments.filter (fun p => wm < p.paymentDate) = [] := by
    rw [List.filter_eq_nil_iff]; intro p hpp; simpa using hp p hpp
  simp [hfr, hfp, buildNewDates]

theorem bridgeFAPass_quiet (src : List SrcFilmActor) (wm : Nat)
    (fm am : List (Nat × Nat)) (b : List BridgeFilmActor)
    (h : ∀ s ∈ src, s.lastUpdate ≤ wm) :
    bridgeFAPass src wm fm am b = b := by
  unfold bridgeFAPass
  have hf : src.filter (fun s => wm < s.lastUpdate) = [] := by
    rw [List.filter_eq_nil_iff]; intro s hs; simpa using h s hs
  simp [hf]

theorem bridgeFCPass_quiet (src : List SrcFilmCategory) (wm : Nat)
    (fm cm : List (Nat × Nat)) (b : List BridgeFilmCategory)
    (h : ∀ s ∈ src, s.lastUpdate ≤ wm) :
    bridgeFCPass src wm fm cm b = b := by
  unfold bridgeFCPass
  have hf : src.filter (fun s => wm < s.lastUpdate) = [] := by
    rw [List.filter_eq_nil_iff]; intro s hs; simpa using h s hs
  simp [hf]

theorem factRentalPass_quiet (src : List SrcRental) (wm : Nat)
    (cm fm sm : List (Nat × Nat)) (facts : List FactRental) (next : Nat)
    (h : ∀ r ∈ src, r.lastUpdate ≤ wm ∧ r.rentalDate ≤ wm) :
    factRentalPass src wm cm fm sm facts next = (facts, next, 0) := by
  unfold factRentalPass
  have hf : src.filter (rentalChanged wm) = [] := by
    rw [List.filter_eq_nil_iff]
    intro r hr
    have := h r hr
    simp [rentalChanged]
    omega
  simp [hf]

theorem factPaymentPass_quiet (src : List SrcPayment) (wm : Nat)
    (cm sm : List (Nat × Nat)) (facts : List FactPayment) (next : Nat)
    (h : ∀ p ∈ src, p.paymentDate ≤ wm) :
    factPaymentPass src wm cm sm facts next = (facts, next, 0) := by
  unfold factPaymentPass
  have hf : src.filter (paymentChanged wm) = [] := by
    rw [List.filter_eq_nil_iff]
    intro p hp
    simp [paymentChanged]
    exact h p hp
  simp [hf]

/-- Every timestamp of the operational store that drives change detection
is at most `t` (all source mutations happened before `t`). -/
def srcTimesLE (db : SourceDB) (t : Nat) : Prop :=
  (∀ a ∈ db.actors, a.lastUpdate ≤ t) ∧ (∀ c ∈ db.categories, c.lastUpdate ≤ t) ∧
  (∀ s ∈ db.stores, s.lastUpdate ≤ t) ∧ (∀ c ∈ db.customers, c.lastUpdate ≤ t) ∧
  (∀ f ∈ db.films, f.lastUpdate ≤ t) ∧ (∀ fa ∈ db.filmActors, fa.lastUpdate ≤ t) ∧
  (∀ fc ∈ db.filmCategories, fc.lastUpdate ≤ t) ∧
  (∀ r ∈ db.rentals, r.lastUpdate ≤ t ∧ r.rentalDate ≤ t) ∧
  (∀ p ∈ db.payments, p.paymentDate ≤ t)

instance (db : SourceDB) (t : Nat) : Decidable (srcTimesLE db t) := by
  unfold srcTimesLE; infer_instance

/-- Every watermark stamp of the schedule is at least `t` (real time has
reached `t` before the run's watermark writes). -/
def schedAtLeast (sched : Schedule) (t : Nat) : Prop :=
  t ≤ sched.actor.stamp ∧ t ≤ sched.category.stamp ∧ t ≤ sched.store.stamp ∧
  t ≤ sched.customer.stamp ∧ t ≤ sched.film.stamp ∧ t ≤ sched.dimDate.stamp ∧
  t ≤ sched.bridgeFA.stamp ∧ t ≤ sched.bridgeFC.stamp ∧
  t ≤ sched.factRental.stamp ∧ t ≤ sched.factPayment.stamp

instance (sched : Schedule) (t : Nat) : Decidable (schedAtLeast sched t) := by
  unfold schedAtLeast; infer_instance

/-- **C1** — idempotence of `incremental`: if no source row changed between
two successive runs (every change-detection timestamp of the source lies
at or before an instant `t` that the first run's watermark stamps have
already reached), the second run leaves every data table of the analytical
store unchanged — so no table gains rows — and the natural-key → surrogate
-key mapping of every dimension is identical before and after the second
run. -/
theorem claim_C1_idempotence (db : SourceDB) (T0 : Target) (sched1 sched2 : Schedule)
    (t : Nat) (hsrc : srcTimesLE db t) (hsched : schedAtLeast sched1 t) :
    (incremental db (incremental db T0 sched1).T sched2).T.dimActor
        = (incremental db T0 sched1).T.dimActor ∧
    (incremental db (incremental db T0 sched1).T sched2).T.dimCategory
        = (incremental db T0 sched1).T.dimCategory ∧
    (incremental db (incremental db T0 sched1).T sched2).T.dimStore
        = (incremental db T0 sched1).T.dimStore ∧
    (incremental db (incremental db T0 sched1).T sched2).T.dimCustomer
        = (incremental db T0 sched1).T.dimCustomer ∧
    (incremental db (incremental db T0 sched1).T sched2).T.dimFilm
        = (incremental db T0 sched1).T.dimFilm ∧
    (incremental db (incremental db T0 sched1).T sched2).T.dimDate
        = (incremental db T0 sched1).T.dimDate ∧
    (incremental db (incremental db T0 sched1).T sched2).T.bridgeFilmActor
        = (incremental db T0 sched1).T.bridgeFilmActor ∧
    (incremental db (incremental db T0 sched1).T sched2).T.bridgeFilmCategory
        = (incremental db T0 sched1).T.bridgeFilmCategory ∧
    (incremental db (incremental db T0 sched1).T sched2).T.factRental
        = (incremental db T0 sched1).T.factRental ∧
    (incremental db (incremental db T0 sched1).T sched2).T.factPayment
        = (incremental db T0 sched1).T.factPayment ∧
    keyMapOf (incremental db (incremental db T0 sched1).T sched2).T.dimActor
        = keyMapOf (incremental db T0 sched1).T.dimActor ∧
    keyMapOf (incremental db (incremental db T0 sched1).T sched2).T.dimCategory
        = keyMapOf (incremental db T0 sched1).T.dimCategory ∧
    keyMapOf (incremental db (incremental db T0 sched1).T sched2).T.dimStore
        = keyMapOf (incremental db T0 sched1).T.dimStore ∧
    keyMapOf (incremental db (incremental db T0 sched1).T sched2).T.dimCustomer
        = keyMapOf (incremental db T0 sched1).T.dimCustomer ∧
    keyMapOf (incremental db (incremental db T0 sched1).T sched2).T.dimFilm
        = keyMapOf (incremental db T0 sched1).T.dimFilm := by
  obtain ⟨h1, h2, h3, h4, h5, h6, h7, h8, h9⟩ := hsrc
  obtain ⟨g1, g2, g3, g4, g5, g6, g7, g8, g9, g10⟩ := hsched
  have eA : (incremental db (incremental db T0 sched1).T sched2).T.dimActor
      = (incremental db T0 sched1).T.dimActor := by
    rw [incremental_dimActor, actorRun, incremental_wm_actor,
      syncDim_quiet _ _ _ _ _ _ (fun a ha => le_trans (h1 a ha) g1)]
  have eC : (incremental db (incremental db T0 sched1).T sched2).T.dimCategory
      = (incremental db T0 sched1).T.dimCategory := by
    rw [incremental_dimCategory, categoryRun, incremental_wm_category,
      syncDim_quiet _ _ _ _ _ _ (fun a ha => le_trans (h2 a ha) g2)]
  have eS : (incremental db (incremental db T0 sched1).T sched2).T.dimStore
      = (incremental db T0 sched1).T.dimStore := by
    rw [incremental_dimStore, storeRun, incremental_wm_store,
      syncDim_quiet _ _ _ _ _ _ (fun a ha => le_trans (h3 a ha) g3)]
  have eU : (incremental db (incremental db T0 sched1).T sched2).T.dimCustomer
      = (incremental db T0 sched1).T.dimCustomer := by
    rw [incremental_dimCustomer, customerRun, incremental_wm_customer,
      syncDim_quiet _ _ _ _ _ _ (fun a ha => le_trans (h4 a ha) g4)]
  have eF : (incremental db (incremental db T0 sched1).T sched2).T.dimFilm
      = (incremental db T0 sched1).T.dimFilm := by
    rw [incremental_dimFilm, filmRun, incremental_wm_film,
      syncDim_quiet _ _ _ _ _ _ (fun a ha => le_trans (h5 a ha) g5)]
  have eD : (incremental db (incremental db T0 sched1).T sched2).T.dimDate
      = (incremental db T0 sched1).T.dimDate := by
    rw [incremental_dimDate, dateRun, incremental_wm_dimDate]
    exact datePass_quiet _ _ _ _ (fun r hr => le_trans (h8 r hr).1 g6)
      (fun p hp => le_trans (h9 p hp) g6)
  have eBA : (incremental db (incremental db T0 sched1).T sched2).T.bridgeFilmActor
      = (incremental db T0 sched1).T.bridgeFilmActor := by
    rw [incremental_bridgeFA, bridgeFARun, incremental_wm_bridgeFA]
    exact bridgeFAPass_quiet _ _ _ _ _ (fun s hs => le_trans (h6 s hs) g7)
  have eBC : (incremental db (incremental db T0 sched1).T sched2).T.bridgeFilmCategory
      = (incremental db T0 sched1).T.bridgeFilmCategory := by
    rw [incremental_bridgeFC, bridgeFCRun, incremental_wm_bridgeFC]
    exact bridgeFCPass_quiet _ _ _ _ _ (fun s hs => le_trans (h7 s hs) g8)
  have eFR : (incremental db (incremental db T0 sched1).T sched2).T.factRental
      = (incremental db T0 sched1).T.factRental := by
    rw [incremental_factRental, factRentalRun, incremental_wm_factRental,
      factRentalPass_quiet _ _ _ _ _ _ _
        (fun r hr => ⟨le_trans (h8 r hr).1 g9, le_trans (h8 r hr).2 g9⟩)]
  have eFP : (incremental db (incremental db T0 sched1).T sched2).T.factPayment
      = (incremental db T0 sched1).T.factPayment := by
    rw [incremental_factPayment, factPaymentRun, incremental_wm_factPayment,
      factPaymentPass_quiet _ _ _ _ _ _ (fun p hp => le_trans (h9 p hp) g10)]
  exact ⟨eA, eC, eS, eU, eF, eD, eBA, eBC, eFR, eFP,
    congrArg keyMapOf eA, congrArg keyMapOf eC, congrArg keyMapOf eS,
    congrArg keyMapOf eU, congrArg keyMapOf eF⟩

/-- A small concrete operational store used by the witnesses. -/
def dbW : SourceDB :=
  { actors := [⟨1, ⟨"A", "B"⟩, 50⟩]
    categories := [⟨1, ⟨"C"⟩, 50⟩]
    stores := [⟨1, ⟨"X", "Y"⟩, 50⟩]
    customers := [⟨1, ⟨"A", "B", 1, "X", "Y"⟩, 50⟩]
    films := [⟨1, ⟨"F", some "PG", some 90, some "E", some 2006⟩, 50⟩]
    filmActors := [⟨1, 1, 50⟩]
    filmCategories := [⟨1, 1, 50⟩]
    rentals := [⟨1, 40, some 45, 1, 1, 1, 1, 50⟩]
    payments := [⟨1, 45, 1, 1, 1, 599, 50⟩] }

/-- The freshly provisioned analytical store (after `init`). -/
def emptyTarget : Target :=
  { dimActor := [], dimCategory := [], dimStore := [], dimCustomer := [], dimFilm := []
    dimDate := [], bridgeFilmActor := [], bridgeFilmCategory := []
    factRental := [], factPayment := [], syncState := []
    nextActorKey := 1, nextCategoryKey := 1, nextStoreKey := 1, nextCustomerKey := 1
    nextFilmKey := 1, nextFactRentalKey := 1, nextFactPaymentKey := 1 }

def schedW1 : Schedule :=
  ⟨⟨90, 100⟩, ⟨91, 101⟩, ⟨92, 102⟩, ⟨93, 103⟩, ⟨94, 104⟩,
   ⟨95, 105⟩, ⟨96, 106⟩, ⟨97, 107⟩, ⟨98, 108⟩, ⟨99, 109⟩⟩

def schedW2 : Schedule :=
  ⟨⟨190, 200⟩, ⟨191, 201⟩, ⟨192, 202⟩, ⟨193, 203⟩, ⟨194, 204⟩,
   ⟨195, 205⟩, ⟨196, 206⟩, ⟨197, 207⟩, ⟨198, 208⟩, ⟨199, 209⟩⟩

/-- Witness for C1 at a concrete store, empty target and concrete
schedules. -/
theorem claim_C1_witness :
    srcTimesLE dbW 100 ∧ schedAtLeast schedW1 100 ∧
    ((incremental dbW (incremental dbW emptyTarget schedW1).T schedW2).T.dimActor
        = (incremental dbW emptyTarget schedW1).T.dimActor ∧
     (incremental dbW (incremental dbW emptyTarget schedW1).T schedW2).T.dimCategory
        = (incremental dbW emptyTarget schedW1).T.dimCategory ∧
     (incremental dbW (incremental dbW emptyTarget schedW1).T schedW2).T.dimStore
        = (incremental dbW emptyTarget schedW1).T.dimStore ∧
     (incremental dbW (incremental dbW emptyTarget schedW1).T schedW2).T.dimCustomer
        = (incremental dbW emptyTarget schedW1).T.dimCustomer ∧
     (incremental dbW (incremental dbW emptyTarget schedW1).T schedW2).T.dimFilm
        = (incremental dbW emptyTarget schedW1).T.dimFilm ∧
     (incremental dbW (incremental dbW emptyTarget schedW1).T schedW2).T.dimDate
        = (incremental dbW emptyTarget schedW1).T.dimDate ∧
     (incremental dbW (incremental dbW emptyTarget schedW1).T schedW2).T.bridgeFilmActor
        = (incremental dbW emptyTarget schedW1).T.bridgeFilmActor ∧
     (incremental dbW (incremental dbW emptyTarget schedW1).T schedW2).T.bridgeFilmCategory
        = (incremental dbW emptyTarget schedW1).T.bridgeFilmCategory ∧
     (incremental dbW (incremental dbW emptyTarget schedW1).T schedW2).T.factRental
        = (incremental dbW emptyTarget schedW1).T.factRental ∧
     (incremental dbW (incremental dbW emptyTarget schedW1).T schedW2).T.factPayment
        = (incremental dbW emptyTarget schedW1).T.factPayment ∧
     keyMapOf (incremental dbW (incremental dbW emptyTarget schedW1).T schedW2).T.dimActor
        = keyMapOf (incremental dbW emptyTarget schedW1).T.dimActor ∧
     keyMapOf (incremental dbW (incremental dbW emptyTarget schedW1).T schedW2).T.dimCategory
        = keyMapOf (incremental dbW emptyTarget schedW1).T.dimCategory ∧
     keyMapOf (incremental dbW (incremental dbW emptyTarget schedW1).T schedW2).T.dimStore
        = keyMapOf (incremental dbW emptyTarget schedW1).T.dimStore ∧
     keyMapOf (incremental dbW (incremental dbW emptyTarget schedW1).T schedW2).T.dimCustomer
        = keyMapOf (incremental dbW emptyTarget schedW1).T.dimCustomer ∧
     keyMapOf (incremental dbW (incremental dbW emptyTarget schedW1).T schedW2).T.dimFilm
        = keyMapOf (incremental dbW emptyTarget schedW1).T.dimFilm) :=
  ⟨by decide, by decide,
    claim_C1_idempotence dbW emptyTarget schedW1 schedW2 100 (by decide) (by decide)⟩

/-- **C8** — the Calendar Deriver: for every date, `quarter` is
`⌈month / 3⌉` (written `(month + 2) / 3` in natural division), and
`isWeekend` holds exactly when the day of week is 0 (Sunday) or 6
(Saturday); the convention is anchored by 1970-01-01 (epoch day 0) being
a Thursday, day-of-week 4. -/
theorem claim_C8_calendar_deriver (t : Nat) :
    (createDimDate t).quarter = ((createDimDate t).month + 2) / 3 ∧
    ((createDimDate t).isWeekend = true ↔
      ((createDimDate t).dayOfWeek = 0 ∨ (createDimDate t).dayOfWeek = 6)) ∧
    (createDimDate 0).dayOfWeek = 4 := by
  obtain ⟨-, hm1, hm2, -, -, -⟩ := civilFromDays_spec (t / msPerDay)
  refine ⟨?_, ?_, by decide⟩
  · simp only [createDimDate]
    split_ifs <;> omega
  · simp [createDimDate]

/-! ## Date-pass structure -/

theorem buildNewDates_nil (acc : List DimDate × List Nat) :
    buildNewDates [] acc = acc := rfl

theorem buildNewDates_cons (day : Nat) (rest : List Nat) (acc : List DimDate × List Nat) :
    buildNewDates (day :: rest) acc =
      buildNewDates rest (if acc.2.contains (dateKeyOfDay day) then acc
        else (acc.1 ++ [createDimDate (day * msPerDay)], acc.2 ++ [dateKeyOfDay day])) := rfl

theorem createDimDate_day_dateKey (day : Nat) :
    (createDimDate (day * msPerDay)).dateKey = dateKeyOfDay day ∧
    (createDimDate (day * msPerDay)).date = day := by
  have h : day * msPerDay / msPerDay = day :=
    Nat.mul_div_cancel day (by norm_num [msPerDay])
  constructor <;> simp [createDimDate, h]

theorem buildNewDates_inv (days : List Nat) : ∀ (rows : List DimDate)
    (keys ex0 : List Nat),
    keys = ex0 ++ rows.map (fun r => r.dateKey) → keys.Nodup →
    (∀ r ∈ rows, r.dateKey = dateKeyOfDay r.date) →
    (buildNewDates days (rows, keys)).2
        = ex0 ++ (buildNewDates days (rows, keys)).1.map (fun r => r.dateKey) ∧
    (buildNewDates days (rows, keys)).2.Nodup ∧
    (∀ r ∈ (buildNewDates days (rows, keys)).1, r.dateKey = dateKeyOfDay r.date) := by
  induction days with
  | nil => intro rows keys ex0 h1 h2 h3; exact ⟨h1, h2, h3⟩
  | cons day rest ih =>
    intro rows keys ex0 h1 h2 h3
    rw [buildNewDates_cons]
    by_cases hc : keys.contains (dateKeyOfDay day)
    · simp only [hc, if_true]
      exact ih rows keys ex0 h1 h2 h3
    · simp only [hc, if_false]
      obtain ⟨w1, w2⟩ := createDimDate_day_dateKey day
      refine ih (rows ++ [createDimDate (day * msPerDay)])
        (keys ++ [dateKeyOfDay day]) ex0 ?_ ?_ ?_
      · simp [h1, w1]
      · rw [List.nodup_append]
        refine ⟨h2, List.nodup_singleton _, ?_⟩
        intro a ha hb
        simp only [List.mem_singleton] at hb
        subst hb
        have hc' : dateKeyOfDay day ∉ keys := by simpa using hc
        exact hc' ha
      · intro r hr
        rcases List.mem_append.mp hr with h | h
        · exact h3 r h
        · simp only [List.mem_singleton] at h
          subst h
          rw [w1, w2]

theorem saveDimDate_fresh (dd : List DimDate) (row : DimDate)
    (h : row.dateKey ∉ dd.map (fun r => r.dateKey)) :
    saveDimDate dd row = dd ++ [row] := by
  unfold saveDimDate
  rw [if_neg]
  intro hc
  rcases List.any_eq_true.mp hc with ⟨r, hr, hk⟩
  exact h (List.mem_map.mpr ⟨r, hr, beq_iff_eq.mp hk⟩)

theorem foldl_saveDimDate_append (rows : List DimDate) : ∀ dd : List DimDate,
    (dd.map (fun r => r.dateKey) ++ rows.map (fun r => r.dateKey)).Nodup →
    rows.foldl (fun acc row => saveDimDate acc row) dd = dd ++ rows := by
  induction rows with
  | nil => intro dd _; simp
  | cons row rest ih =>
    intro dd h
    have hni : row.dateKey ∉ dd.map (fun r => r.dateKey) := by
      intro hmem
      have := (List.nodup_append.mp h).2.2
      exact this hmem (by simp)
    simp only [List.foldl_cons]
    rw [saveDimDate_fresh dd row hni, ih (dd ++ [row]) ?_, List.append_assoc,
      List.singleton_append]
    have heq : (dd ++ [row]).map (fun r => r.dateKey) ++ rest.map (fun r => r.dateKey)
        = dd.map (fun r => r.dateKey) ++ (row :: rest).map (fun r => r.dateKey) := by
      simp
    rw [heq]
    exact h

/-- Every incremental date pass only appends rows whose key is the derived
key of their calendar date, and never creates two rows with the same
`dateKey`. -/
theorem datePass_spec (rentals : List SrcRental) (payments : List SrcPayment)
    (wm : Nat) (dd : List DimDate)
    (hnd : (dd.map (fun r => r.dateKey)).Nodup) :
    ∃ rows, datePass rentals payments wm dd = dd ++ rows ∧
      ((dd ++ rows).map (fun r => r.dateKey)).Nodup ∧
      ∀ r ∈ rows, r.dateKey = dateKeyOfDay r.date := by
  unfold datePass
  obtain ⟨i1, i2, i3⟩ := buildNewDates_inv _ [] (dd.map (fun d => d.dateKey))
    (dd.map (fun d => d.dateKey)) (by simp) hnd (by simp)
  refine ⟨_, ?_, ?_, i3⟩
  · exact foldl_saveDimDate_append _ dd (by rw [← i1]; exact i2)
  · rw [List.map_append, ← i1]
    exact i2

/-- **C7** — date-key derivation is deterministic and injective: two JS
date values denoting the same calendar date (same epoch day) get the same
`dateToKey`; distinct epoch days get distinct keys; and after an
incremental run a `dim_date` table whose rows carry the derived key of
their date and have pairwise-distinct keys still has pairwise-distinct
calendar dates, even when several source transactions of the pass share
a date. -/
theorem claim_C7_date_key (t1 t2 : Nat) (h12 : t1 / msPerDay = t2 / msPerDay)
    (d1 d2 : Nat) (hdk : dateKeyOfDay d1 = dateKeyOfDay d2)
    (db : SourceDB) (T : Target) (sched : Schedule)
    (hwf : ∀ r ∈ T.dimDate, r.dateKey = dateKeyOfDay r.date)
    (hnd : (T.dimDate.map (fun r => r.dateKey)).Nodup) :
    dateToKey (some t1) = dateToKey (some t2) ∧ d1 = d2 ∧
    ((incremental db T sched).T.dimDate.map (fun r => r.date)).Nodup := by
  refine ⟨by simp [dateToKey, h12], dateKeyOfDay_injective hdk, ?_⟩
  rw [incremental_dimDate, dateRun]
  obtain ⟨rows, heq, hnd', hwf'⟩ := datePass_spec db.rentals db.payments
    (getWm T.syncState "dim_date_sync") T.dimDate hnd
  rw [heq]
  have hall : ∀ r ∈ T.dimDate ++ rows, r.dateKey = dateKeyOfDay r.date := by
    intro r hr
    rcases List.mem_append.mp hr with h | h
    · exact hwf r h
    · exact hwf' r h
  have hmap : (T.dimDate ++ rows).map (fun r => r.dateKey)
      = ((T.dimDate ++ rows).map (fun r => r.date)).map dateKeyOfDay := by
    rw [List.map_map]
    exact List.map_congr_left hall
  rw [hmap] at hnd'
  exact hnd'.of_map

/-- Witness for C7 at concrete dates, store and schedule. -/
theorem claim_C7_witness :
    dateToKey (some 1000) = dateToKey (some 2000) ∧ (3 : Nat) = 3 ∧
    ((incremental dbW emptyTarget schedW1).T.dimDate.map (fun r => r.date)).Nodup :=
  claim_C7_date_key 1000 2000 (by decide) 3 3 (by decide) dbW emptyTarget schedW1
    (by decide) (by decide)

/-! ## Fact-pass membership -/

theorem saveFactRental_mem (facts : List FactRental) (next : Nat) (key? : Option Nat)
    (row : Nat → FactRental) (f : FactRental)
    (hf : f ∈ (saveFactRental facts next key? row).1) :
    f ∈ facts ∨ ∃ k, f = row k := by
  cases key? with
  | none =>
    simp only [saveFactRental] at hf
    rcases List.mem_append.mp hf with h | h
    · exact Or.inl h
    · exact Or.inr ⟨next, by simpa using h⟩
  | some k =>
    simp only [saveFactRental] at hf
    by_cases hex : facts.any (fun g => g.factRentalKey == k)
    · rw [if_pos hex] at hf
      rcases List.mem_map.mp hf with ⟨g, hg, hfg⟩
      by_cases hk : g.factRentalKey == k
      · rw [if_pos hk] at hfg
        exact Or.inr ⟨k, hfg.symm⟩
      · rw [if_neg hk] at hfg
        exact Or.inl (hfg ▸ hg)
    · rw [if_neg hex] at hf
      rcases List.mem_append.mp hf with h | h
      · exact Or.inl h
      · exact Or.inr ⟨k, by simpa using h⟩

theorem factRentalFold_mem (cm fm sm : List (Nat × Nat)) (facts0 : List FactRental)
    (rows : List SrcRental) : ∀ (acc : List FactRental × Nat) (f : FactRental),
    f ∈ (rows.foldl (fun (acc : List FactRental × Nat) rr =>
      saveFactRental acc.1 acc.2 ((facts0.find? (fun g => g.rentalId == rr.rentalId)).map
        (fun g => g.factRentalKey)) (mkFactRental cm fm sm rr)) acc).1 →
    f ∈ acc.1 ∨ ∃ r ∈ rows, ∃ k, f = mkFactRental cm fm sm r k := by
  induction rows with
  | nil => intro acc f hf; exact Or.inl hf
  | cons r rest ih =>
    intro acc f hf
    simp only [List.foldl_cons] at hf
    rcases ih _ f hf with h | ⟨r', hr', k, hk⟩
    · rcases saveFactRental_mem _ _ _ _ _ h with h' | ⟨k, hk⟩
      · exact Or.inl h'
      · exact Or.inr ⟨r, List.mem_cons_self r rest, k, hk⟩
    · exact Or.inr ⟨r', List.mem_cons_of_mem r hr', k, hk⟩

theorem factRentalPass_mem (src : List SrcRental) (wm : Nat)
    (cm fm sm : List (Nat × Nat)) (facts0 : List FactRental) (next0 : Nat)
    (f : FactRental) (hf : f ∈ (factRentalPass src wm cm fm sm facts0 next0).1) :
    f ∈ facts0 ∨ ∃ r ∈ src, ∃ k, f = mkFactRental cm fm sm r k := by
  unfold factRentalPass at hf
  split_ifs at hf with hempty
  · exact Or.inl hf
  · simp only at hf
    rcases factRentalFold_mem cm fm sm facts0 _ _ f hf with h | ⟨r, hr, k, hk⟩
    · exact Or.inl h
    · refine Or.inr ⟨r, ?_, k, hk⟩
      have := List.mem_filter.mp (List.mem_filter.mp
        (by simpa [factRentalToSave] using hr)).1
      exact this.1

/-- **C10** — every rental row an incremental run writes to `fact_rental`
carries the recomputed measures of some source rental: `dateKeyReturned`
and `rentalDurationDays` are null exactly when the rental has no return
date, and otherwise the duration is the ceiling of the absolute
difference of the two dates in whole days — a natural number, hence never
negative, and symmetric in the two endpoints (a return date before the
rental date yields the same nonnegative value). -/
theorem claim_C10_rental_duration :
    (∀ (db : SourceDB) (T : Target) (sched : Schedule) (f : FactRental),
      f ∈ (incremental db T sched).T.factRental →
      f ∈ T.factRental ∨ ∃ r ∈ db.rentals,
        f.dateKeyReturned = dateToKey r.returnDate ∧
        f.rentalDurationDays = getDaysBetween (some r.rentalDate) r.returnDate ∧
        (f.rentalDurationDays = none ↔ r.returnDate = none) ∧
        (f.dateKeyReturned = none ↔ r.returnDate = none) ∧
        (∀ ret, r.returnDate = some ret → f.rentalDurationDays
          = some ((((ret : Int) - (r.rentalDate : Int)).natAbs + (msPerDay - 1)) / msPerDay))) ∧
    (∀ s e : Nat, getDaysBetween (some s) (some e) = getDaysBetween (some e) (some s)) := by
  constructor
  · intro db T sched f hf
    rw [incremental_factRental, factRentalRun] at hf
    rcases factRentalPass_mem _ _ _ _ _ _ _ f hf with h | ⟨r, hr, k, hk⟩
    · exact Or.inl h
    · refine Or.inr ⟨r, hr, ?_⟩
      subst hk
      refine ⟨rfl, rfl, ?_, ?_, ?_⟩
      · cases hret : r.returnDate <;> simp [mkFactRental, getDaysBetween, hret]
      · cases hret : r.returnDate <;> simp [mkFactRental, dateToKey, hret]
      · intro ret hret
        simp [mkFactRental, getDaysBetween, hret]
  · intro s e
    simp only [getDaysBetween]
    have h : ((e : Int) - s).natAbs = ((s : Int) - e).natAbs := by omega
    rw [h]

/-- Witness for C10 at the concrete store and schedule: the rental of
`dbW` (rented at 40 ms, returned at 45 ms) yields duration ⌈5/86400000⌉ =
1 day. -/
theorem claim_C10_witness :
    ((⟨1, 1, 19700101, some 19700101, 1, 1, 1, 1, some 1⟩ : FactRental)
        ∈ emptyTarget.factRental ∨
      ∃ r ∈ dbW.rentals,
        (some 19700101 : Option Nat) = dateToKey r.returnDate ∧
        (some 1 : Option Nat) = getDaysBetween (some r.rentalDate) r.returnDate ∧
        ((some 1 : Option Nat) = none ↔ r.returnDate = none) ∧
        ((some 19700101 : Option Nat) = none ↔ r.returnDate = none) ∧
        (∀ ret, r.returnDate = some ret → (some 1 : Option Nat)
          = some ((((ret : Int) - (r.rentalDate : Int)).natAbs + (msPerDay - 1)) / msPerDay))) ∧
    getDaysBetween (some 40) (some 45) = getDaysBetween (some 45) (some 40) := by
  constructor
  · exact claim_C10_rental_duration.1 dbW emptyTarget schedW1
      ⟨1, 1, 19700101, some 19700101, 1, 1, 1, 1, some 1⟩ (by decide)
  · exact claim_C10_rental_duration.2 40 45

/-- **C5** counterexample — the claim fails for `fact_payment`: a payment
whose own last-changed timestamp (10) exceeds the watermark (5) but whose
payment date (0) does not is *not* selected by incremental change
detection (and not persisted), although both foreign keys resolve. -/
theorem claim_C5_counterexample :
    (5 : Nat) < (⟨1, 0, 1, 1, 1, 599, 10⟩ : SrcPayment).lastUpdate ∧
    paymentChanged 5 ⟨1, 0, 1, 1, 1, 599, 10⟩ = false ∧
    paymentResolved [(1, 1)] [(1, 1)] ⟨1, 0, 1, 1, 1, 599, 10⟩ = true ∧
    (factPaymentPass [⟨1, 0, 1, 1, 1, 599, 10⟩] 5 [(1, 1)] [(1, 1)] [] 1).1 = [] := by
  decide

/-- **C5** amended — change detection: `fact_rental` selects a rental when
its rental date *or* its last-changed timestamp exceeds the watermark, as
claimed; `fact_payment`, whose source rows are treated as immutable,
selects a payment only when its payment date exceeds the watermark. -/
theorem claim_C5_amended (wm : Nat) (r : SrcRental) (p : SrcPayment) :
    (rentalChanged wm r = true ↔ (wm < r.rentalDate ∨ wm < r.lastUpdate)) ∧
    (paymentChanged wm p = true ↔ wm < p.paymentDate) := by
  constructor <;> simp [rentalChanged, paymentChanged]

/-! ## Counting dropped rows and warnings -/

theorem length_filter_sub {α : Type} (l : List α) (p : α → Bool) :
    (l.filter p).length = l.length - (l.filter (fun a => !(p a))).length := by
  induction l with
  | nil => rfl
  | cons a t ih =>
    have hle := List.length_filter_le (fun a => !(p a)) t
    by_cases h : p a <;> (simp [h, ih]; try omega)

theorem filter_map_length {α β : Type} (l : List α) (g : α → β) (q : β → Bool) :
    ((l.map g).filter q).length = (l.filter (fun a => q (g a))).length := by
  induction l with
  | nil => rfl
  | cons a t ih => by_cases h : q (g a) <;> simp [h, ih]

theorem factRentalPass_warnings (src : List SrcRental) (wm : Nat)
    (cm fm sm : List (Nat × Nat)) (facts : List FactRental) (next : Nat) :
    (factRentalPass src wm cm fm sm facts next).2.2
      = factRentalSkipCount src wm cm fm sm := by
  unfold factRentalPass
  split_ifs with h
  · unfold factRentalSkipCount
    rw [List.isEmpty_iff.mp h]
    rfl
  · rfl

theorem factPaymentPass_warnings (src : List SrcPayment) (wm : Nat)
    (cm sm : List (Nat × Nat)) (facts : List FactPayment) (next : Nat) :
    (factPaymentPass src wm cm sm facts next).2.2
      = factPaymentSkipCount src wm cm sm := by
  unfold factPaymentPass
  split_ifs with h
  · unfold factPaymentSkipCount
    rw [List.isEmpty_iff.mp h]
    rfl
  · rfl

/-- The source row of `db4W` associates a film id (99) that exists in no
film table, so its bridge pair is unresolvable. -/
def db4W : SourceDB := { dbW with filmActors := [⟨99, 1, 50⟩] }

/-- **C4** counterexample — the claim fails for bridge rows: running
`incremental` on `db4W` from an empty target, exactly one changed
film-actor association lies in the window and its film key is
unresolvable, so the bridge receives one row fewer than the source
provides (none at all) — yet the run emits 0 warnings, not 1. -/
theorem claim_C4_counterexample :
    (db4W.filmActors.filter (fun s => 0 < s.lastUpdate)).length = 1 ∧
    (incremental db4W emptyTarget schedW1).T.bridgeFilmActor.length = 0 ∧
    (incremental db4W emptyTarget schedW1).warnings = 0 := by
  decide

/-- **C4** amended — in every mode a row with an unresolved foreign key is
dropped, so for each pass the saved set is exactly the changed window
minus its `N` unresolved rows; warnings, however, are emitted only by the
two incremental fact passes (one per skipped fact), whose skip counts are
exactly what an incremental run's warning total consists of — bridge-row
drops are silent. -/
theorem claim_C4_amended (db : SourceDB) (T : Target) (sched : Schedule)
    (src : List SrcFilmActor) (wm : Nat) (fm am cm sm : List (Nat × Nat))
    (rsrc : List SrcRental) (psrc : List SrcPayment) (facts : List FactRental)
    (pfacts : List FactPayment) (next pnext : Nat) :
    (bridgeFAToSave src wm fm am).length
        = (src.filter (fun s => wm < s.lastUpdate)).length
          - ((src.filter (fun s => wm < s.lastUpdate)).filter (fun s =>
              !((mget fm s.filmId).getD 0 != 0 && (mget am s.actorId).getD 0 != 0))).length ∧
    (factRentalToSave rsrc wm cm fm sm).length
        = (rsrc.filter (rentalChanged wm)).length - factRentalSkipCount rsrc wm cm fm sm ∧
    (factRentalPass rsrc wm cm fm sm facts next).2.2
        = factRentalSkipCount rsrc wm cm fm sm ∧
    (factPaymentToSave psrc wm cm sm).length
        = (psrc.filter (paymentChanged wm)).length - factPaymentSkipCount psrc wm cm sm ∧
    (factPaymentPass psrc wm cm sm pfacts pnext).2.2
        = factPaymentSkipCount psrc wm cm sm ∧
    (incremental db T sched).warnings
        = (factRentalRun db T).2.2 + (factPaymentRun db T).2.2 := by
  refine ⟨?_, ?_, factRentalPass_warnings _ _ _ _ _ _ _,
    ?_, factPaymentPass_warnings _ _ _ _ _ _, incremental_warnings db T sched⟩
  · unfold bridgeFAToSave
    rw [filter_map_length, length_filter_sub]
  · unfold factRentalToSave factRentalSkipCount
    exact length_filter_sub _ _
  · unfold factPaymentToSave factPaymentSkipCount
    exact length_filter_sub _ _

/-- A run whose source reads are all issued at time 10 while every
watermark `new Date()` is evaluated at time 20, against a source whose
only actor was last mutated at 15 — after the read began, before the
stamp. -/
def dbC6 : SourceDB := { dbW with actors := [⟨1, ⟨"A", "B"⟩, 15⟩] }

def schedC6 : Schedule :=
  ⟨⟨10, 20⟩, ⟨10, 20⟩, ⟨10, 20⟩, ⟨10, 20⟩, ⟨10, 20⟩,
   ⟨10, 20⟩, ⟨10, 20⟩, ⟨10, 20⟩, ⟨10, 20⟩, ⟨10, 20⟩⟩

/-- **C6** counterexample — the watermark is *not* advanced to the moment
the source read was taken: the actor pass of `schedC6` reads at 10 and
stamps at 20, and the stored watermark is 20, not 10; consequently the
actor row mutated at 15 (after the read started) has a change timestamp
*below* the new watermark, and the next pass's change detection does not
select it. -/
theorem claim_C6_counterexample :
    schedC6.actor.read = 10 ∧
    getWm (incremental dbC6 emptyTarget schedC6).T.syncState "actor" = 20 ∧
    ¬ getWm (incremental dbC6 emptyTarget schedC6).T.syncState "actor"
        = schedC6.actor.read ∧
    schedC6.actor.read < (⟨1, ⟨"A", "B"⟩, 15⟩ : SrcRow ActorAttrs).lastUpdate ∧
    ¬ getWm (incremental dbC6 emptyTarget schedC6).T.syncState "actor"
        ≤ (⟨1, ⟨"A", "B"⟩, 15⟩ : SrcRow ActorAttrs).lastUpdate ∧
    dbC6.actors.filter (fun a =>
      getWm (incremental dbC6 emptyTarget schedC6).T.syncState "actor" < a.lastUpdate) = [] := by
  decide

/-- **C6** amended — after a pass, each table's watermark equals that
table's `new Date()` stamp, taken after the table's processing (before
the transaction commits), not the read time; a row whose change timestamp
exceeds that stamp is selected by the next pass: the next run's changed
window for each table is exactly the rows with timestamps above the
stamp. -/
theorem claim_C6_amended (db : SourceDB) (T : Target) (sched : Schedule) :
    getWm (incremental db T sched).T.syncState "actor" = sched.actor.stamp ∧
    getWm (incremental db T sched).T.syncState "category" = sched.category.stamp ∧
    getWm (incremental db T sched).T.syncState "store" = sched.store.stamp ∧
    getWm (incremental db T sched).T.syncState "customer" = sched.customer.stamp ∧
    getWm (incremental db T sched).T.syncState "film" = sched.film.stamp ∧
    getWm (incremental db T sched).T.syncState "dim_date_sync" = sched.dimDate.stamp ∧
    getWm (incremental db T sched).T.syncState "bridge_film_actor" = sched.bridgeFA.stamp ∧
    getWm (incremental db T sched).T.syncState "bridge_film_category"
        = sched.bridgeFC.stamp ∧
    getWm (incremental db T sched).T.syncState "fact_rental" = sched.factRental.stamp ∧
    getWm (incremental db T sched).T.syncState "fact_payment" = sched.factPayment.stamp ∧
    db.actors.filter (fun a =>
        getWm (incremental db T sched).T.syncState "actor" < a.lastUpdate)
      = db.actors.filter (fun a => sched.actor.stamp < a.lastUpdate) ∧
    db.films.filter (fun f =>
        getWm (incremental db T sched).T.syncState "film" < f.lastUpdate)
      = db.films.filter (fun f => sched.film.stamp < f.lastUpdate) ∧
    db.rentals.filter (rentalChanged
        (getWm (incremental db T sched).T.syncState "fact_rental"))
      = db.rentals.filter (rentalChanged sched.factRental.stamp) ∧
    db.payments.filter (paymentChanged
        (getWm (incremental db T sched).T.syncState "fact_payment"))
      = db.payments.filter (paymentChanged sched.factPayment.stamp) := by
  refine ⟨incremental_wm_actor db T sched, incremental_wm_category db T sched,
    incremental_wm_store db T sched, incremental_wm_customer db T sched,
    incremental_wm_film db T sched, incremental_wm_dimDate db T sched,
    incremental_wm_bridgeFA db T sched, incremental_wm_bridgeFC db T sched,
    incremental_wm_factRental db T sched, incremental_wm_factPayment db T sched,
    ?_, ?_, ?_, ?_⟩
  · rw [incremental_wm_actor]
  · rw [incremental_wm_film]
  · rw [incremental_wm_factRental]
  · rw [incremental_wm_factPayment]

/-! ## Key-map lookups versus dimension rows -/

theorem mget_cons (p : Nat × Nat) (m : List (Nat × Nat)) (x : Nat) :
    mget (p :: m) x = match mget m x with
      | some v => some v
      | none => if p.1 == x then some p.2 else none := rfl

theorem keyMapOf_cons {α : Type} (r : DimRow α) (rest : List (DimRow α)) :
    keyMapOf (r :: rest) = (r.natId, r.key) :: keyMapOf rest := rfl

theorem mget_keyMapOf_mem {α : Type} (dim : List (DimRow α)) (n k : Nat)
    (h : mget (keyMapOf dim) n = some k) : ∃ r ∈ dim, r.natId = n ∧ r.key = k := by
  induction dim with
  | nil => simp [keyMapOf, mget] at h
  | cons r rest ih =>
    rw [keyMapOf_cons, mget_cons] at h
    rcases hm : mget (keyMapOf rest) n with - | v
    · rw [hm] at h
      simp only at h
      split_ifs at h with hr
      exact ⟨r, List.mem_cons_self r rest, beq_iff_eq.mp hr, by simpa using h⟩
    · rw [hm] at h
      simp only at h
      obtain ⟨r', hr', h1, h2⟩ := ih (by rw [hm]; exact h)
      exact ⟨r', List.mem_cons_of_mem r hr', h1, h2⟩

theorem mget_keyMapOf_none {α : Type} (dim : List (DimRow α)) (n : Nat)
    (h : ∀ r ∈ dim, r.natId ≠ n) : mget (keyMapOf dim) n = none := by
  induction dim with
  | nil => rfl
  | cons r rest ih =>
    rw [keyMapOf_cons, mget_cons,
      ih (fun r' hr' => h r' (List.mem_cons_of_mem r hr'))]
    simp [h r (List.mem_cons_self r rest)]

theorem mget_keyMapOf_of_filter {α : Type} (dim : List (DimRow α)) (n k : Nat)
    (h : (dim.filter (fun r => r.natId == n)).map (fun r => r.key) = [k]) :
    mget (keyMapOf dim) n = some k := by
  induction dim with
  | nil => simp at h
  | cons r rest ih =>
    rw [keyMapOf_cons, mget_cons]
    by_cases hr : r.natId = n
    · rw [List.filter_cons_of_pos (by simpa using hr)] at h
      simp only [List.map_cons, List.cons_eq_cons] at h
      have hrest : rest.filter (fun r => r.natId == n) = [] := by
        rcases h with ⟨-, h2⟩
        exact List.map_eq_nil_iff.mp h2
      have hnone : mget (keyMapOf rest) n = none := by
        apply mget_keyMapOf_none
        intro r' hr' hc
        have : r' ∈ rest.filter (fun r => r.natId == n) :=
          List.mem_filter.mpr ⟨hr', by simpa using hc⟩
        simp [hrest] at this
      rw [hnone]
      simp [hr, h.1]
    · rw [List.filter_cons_of_neg (by simpa using hr)] at h
      rw [ih h]

theorem filter_singleton_of_map_key {α : Type} (dim : List (DimRow α)) (n k : Nat)
    (h : (dim.filter (fun r => r.natId == n)).map (fun r => r.key) = [k]) :
    ∃ r0, dim.filter (fun r => r.natId == n) = [r0] ∧ r0.key = k := by
  rcases hf : dim.filter (fun r => r.natId == n) with - | ⟨r0, rest⟩
  · rw [hf] at h; simp at h
  · rw [hf] at h
    simp only [List.map_cons, List.cons_eq_cons] at h
    exact ⟨r0, by rw [hf, List.map_eq_nil_iff.mp h.2], h.1⟩

/-- Under distinct surrogate keys, the row bearing the mapped key of `n`
is the only row with natural key `n`: membership-level pointwise form. -/
theorem natId_iff_key {α : Type} (dim : List (DimRow α)) (n k : Nat)
    (ha : (dim.filter (fun r => r.natId == n)).map (fun r => r.key) = [k])
    (hnd : (dim.map (fun r => r.key)).Nodup) :
    ∀ r ∈ dim, (r.natId = n ↔ r.key = k) := by
  obtain ⟨r0, hf, hk⟩ := filter_singleton_of_map_key dim n k ha
  have hr0 : r0 ∈ dim ∧ r0.natId = n := by
    have : r0 ∈ dim.filter (fun r => r.natId == n) := by rw [hf]; simp
    have h' := List.mem_filter.mp this
    exact ⟨h'.1, by simpa using h'.2⟩
  intro r hr
  constructor
  · intro hn
    have : r ∈ dim.filter (fun r => r.natId == n) :=
      List.mem_filter.mpr ⟨hr, by simpa using hn⟩
    rw [hf] at this
    simp only [List.mem_singleton] at this
    rw [this, hk]
  · intro hkr
    have : r = r0 := List.inj_on_of_nodup_map hnd hr hr0.1 (by rw [hkr, hk])
    rw [this]
    exact hr0.2

/-! ## Upsert stability -/

theorem filter_map_update_self {α : Type} (dim : List (DimRow α)) (n k : Nat)
    (a : α) (lu : Nat)
    (hpt : ∀ r ∈ dim, (r.natId = n ↔ r.key = k))
    (ha : (dim.filter (fun r => r.natId == n)).map (fun r => r.key) = [k]) :
    ((dim.map (fun r => if r.key == k then ⟨k, n, a, lu⟩ else r)).filter
      (fun r => r.natId == n)).map (fun r => r.key) = [k] := by
  induction dim with
  | nil => simp at ha
  | cons r rest ih =>
    have hpt' : ∀ r' ∈ rest, (r'.natId = n ↔ r'.key = k) :=
      fun r' hr' => hpt r' (List.mem_cons_of_mem r hr')
    by_cases hr : r.key = k
    · have hn : r.natId = n := (hpt r (List.mem_cons_self r rest)).mpr hr
      rw [List.filter_cons_of_pos (by simpa using hn)] at ha
      simp only [List.map_cons, List.cons_eq_cons] at ha
      have hrest : rest.filter (fun r => r.natId == n) = [] :=
        List.map_eq_nil_iff.mp ha.2
      have hrest' : (rest.map (fun r => if r.key == k then ⟨k, n, a, lu⟩ else r)).filter
          (fun r => r.natId == n) = [] := by
        rw [List.filter_eq_nil_iff]
        intro x hx
        rcases List.mem_map.mp hx with ⟨r', hr', hxr⟩
        have hnot : ¬ r'.natId = n := by
          intro hc
          have : r' ∈ rest.filter (fun r => r.natId == n) :=
            List.mem_filter.mpr ⟨hr', by simpa using hc⟩
          simp [hrest] at this
        have hknot : ¬ r'.key = k := fun hc => hnot ((hpt' r' hr').mpr hc)
        rw [if_neg (show ¬((r'.key == k) = true) by simpa using hknot)] at hxr
        rw [← hxr]
        simpa using hnot
      simp only [List.map_cons, if_pos (show ((r.key == k) = true) by simpa using hr)]
      rw [List.filter_cons_of_pos (by simp), List.map_cons, hrest']
      rfl
    · have hn : ¬ r.natId = n := fun hc => hr ((hpt r (List.mem_cons_self r rest)).mp hc)
      rw [List.filter_cons_of_neg (by simpa using hn)] at ha
      simp only [List.map_cons, if_neg (show ¬((r.key == k) = true) by simpa using hr)]
      rw [List.filter_cons_of_neg (by simpa using hn)]
      exact ih hpt' ha

theorem filter_map_update_other {α : Type} (dim : List (DimRow α)) (n : Nat)
    (k' : Nat) (newRow : DimRow α) (hnew : ¬ newRow.natId = n)
    (hold : ∀ r ∈ dim, r.key = k' → ¬ r.natId = n) :
    (dim.map (fun r => if r.key == k' then newRow else r)).filter
      (fun r => r.natId == n) = dim.filter (fun r => r.natId == n) := by
  induction dim with
  | nil => rfl
  | cons r rest ih =>
    have hold' : ∀ r' ∈ rest, r'.key = k' → ¬ r'.natId = n :=
      fun r' hr' => hold r' (List.mem_cons_of_mem r hr')
    simp only [List.map_cons]
    by_cases hr : r.key = k'
    · have hn : ¬ r.natId = n := hold r (List.mem_cons_self r rest) hr
      rw [if_pos (show ((r.key == k') = true) by simpa using hr),
        List.filter_cons_of_neg (by simpa using hnew),
        List.filter_cons_of_neg (by simpa using hn)]
      exact ih hold'
    · rw [if_neg (show ¬((r.key == k') = true) by simpa using hr)]
      by_cases hn : r.natId = n
      · rw [List.filter_cons_of_pos (by simpa using hn),
          List.filter_cons_of_pos (by simpa using hn), ih hold']
      · rw [List.filter_cons_of_neg (by simpa using hn),
          List.filter_cons_of_neg (by simpa using hn)]
        exact ih hold'

/-- Updating a row in place never changes the surrogate-key column. -/
theorem map_key_update {α : Type} (dim : List (DimRow α)) (k0 id0 : Nat)
    (a : α) (lu : Nat) :
    ((dim.map (fun r => if r.key == k0 then (⟨k0, id0, a, lu⟩ : DimRow α) else r)).map
      (fun r => r.key)) = dim.map (fun r => r.key) := by
  rw [List.map_map]
  apply List.map_congr_left
  intro r _
  by_cases hr : r.key = k0
  · simp [hr]
  · simp [hr]

theorem jsKey_some (o : Option Nat) (k : Nat) (h : jsKey o = some k) :
    o = some k ∧ k ≠ 0 := by
  cases o with
  | none => simp [jsKey] at h
  | some v =>
    simp only [jsKey] at h
    split_ifs at h with hv
    rw [Option.some.injEq] at h
    subst h
    exact ⟨rfl, by simpa using hv⟩

theorem DimRow_key_mk {α : Type} (k n : Nat) (a : α) (lu : Nat) :
    (DimRow.mk k n a lu).key = k := rfl

theorem saveDimRow_stable {α : Type} (dim : List (DimRow α)) (next : Nat)
    (key? : Option Nat) (id : Nat) (a : α) (lu : Nat) (n k : Nat)
    (ha : (dim.filter (fun r => r.natId == n)).map (fun r => r.key) = [k])
    (hnd : (dim.map (fun r => r.key)).Nodup)
    (hb : ∀ r ∈ dim, r.key < next)
    (hcase : (id = n ∧ key? = some k) ∨ (id ≠ n ∧ ∀ k', key? = some k' → k' ≠ k)) :
    (((saveDimRow dim next key? id a lu).1.filter (fun r => r.natId == n)).map
        (fun r => r.key) = [k]) ∧
    ((saveDimRow dim next key? id a lu).1.map (fun r => r.key)).Nodup ∧
    (∀ r ∈ (saveDimRow dim next key? id a lu).1,
      r.key < (saveDimRow dim next key? id a lu).2.1) := by
  cases key? with
  | none =>
    have hid : id ≠ n := by
      rcases hcase with ⟨-, hc⟩ | ⟨hc, -⟩
      · exact absurd hc (by simp)
      · exact hc
    simp only [saveDimRow]
    refine ⟨?_, ?_, ?_⟩
    · rw [List.filter_append,
        show List.filter (fun r => r.natId == n) [(⟨next, id, a, lu⟩ : DimRow α)] = []
          from by simp [hid],
        List.append_nil]
      exact ha
    · rw [List.map_append, List.nodup_append]
      refine ⟨hnd, by simp, ?_⟩
      intro x hx hx2
      simp only [List.map_cons, List.map_nil, List.mem_singleton] at hx2
      rcases List.mem_map.mp hx with ⟨r, hr, hrx⟩
      have := hb r hr
      omega
    · intro r hr
      rcases List.mem_append.mp hr with h | h
      · exact Nat.lt_succ_of_lt (hb r h)
      · simp only [List.mem_singleton] at h
        rw [h, DimRow_key_mk]
        exact Nat.lt_succ_self next
  | some k' =>
    by_cases hex : dim.any (fun r => r.key == k')
    · rcases hcase with ⟨hidn, hkk⟩ | ⟨hidn, hne⟩
      · have hk' : k' = k := (Option.some.injEq _ _).mp hkk
        subst hk'
        subst hidn
        simp only [saveDimRow, if_pos hex]
        refine ⟨?_, ?_, ?_⟩
        · exact filter_map_update_self dim _ _ a lu (natId_iff_key dim _ _ ha hnd) ha
        · rw [map_key_update]
          exact hnd
        · intro r hr
          rcases List.mem_map.mp hr with ⟨r', hr', hrx⟩
          have h2 := hb r' hr'
          by_cases h0 : r'.key = k'
          · rw [← hrx, if_pos (show ((r'.key == k') = true) by simpa using h0),
              DimRow_key_mk]
            omega
          · rw [← hrx, if_neg (show ¬((r'.key == k') = true) by simpa using h0)]
            exact h2
      · have hk'k : k' ≠ k := hne k' rfl
        simp only [saveDimRow, if_pos hex]
        have hiff := natId_iff_key dim n k ha hnd
        refine ⟨?_, ?_, ?_⟩
        · have hold : ∀ r ∈ dim, r.key = k' → ¬ r.natId = n := by
            intro r hr hkr hc
            exact hk'k (hkr ▸ (hiff r hr).mp hc)
          rw [filter_map_update_other dim n k' ⟨k', id, a, lu⟩ (by simpa using hidn) hold]
          exact ha
        · rw [map_key_update]
          exact hnd
        · intro r hr
          rcases List.mem_map.mp hr with ⟨r', hr', hrx⟩
          have h2 := hb r' hr'
          by_cases h0 : r'.key = k'
          · rw [← hrx, if_pos (show ((r'.key == k') = true) by simpa using h0),
              DimRow_key_mk]
            omega
          · rw [← hrx, if_neg (show ¬((r'.key == k') = true) by simpa using h0)]
            exact h2
    · rcases hcase with ⟨hidn, hkk⟩ | ⟨hidn, hne⟩
      · exfalso
        have hk' : k' = k := (Option.some.injEq _ _).mp hkk
        subst hk'
        obtain ⟨r0, hf0, hk0⟩ := filter_singleton_of_map_key dim n k' ha
        have hr0mem : r0 ∈ dim := by
          have : r0 ∈ dim.filter (fun r => r.natId == n) := by rw [hf0]; simp
          exact (List.mem_filter.mp this).1
        exact hex (List.any_eq_true.mpr ⟨r0, hr0mem, by simpa using hk0⟩)
      · simp only [saveDimRow, if_neg hex]
        refine ⟨?_, ?_, ?_⟩
        · rw [List.filter_append,
            show List.filter (fun r => r.natId == n) [(⟨k', id, a, lu⟩ : DimRow α)] = []
              from by simp [hidn],
            List.append_nil]
          exact ha
        · rw [List.map_append, List.nodup_append]
          refine ⟨hnd, by simp, ?_⟩
          intro x hx hx2
          simp only [List.map_cons, List.map_nil, List.mem_singleton] at hx2
          subst hx2
          rcases List.mem_map.mp hx with ⟨r, hr, hrx⟩
          exact hex (List.any_eq_true.mpr ⟨r, hr, by simpa using hrx⟩)
        · intro r hr
          rcases List.mem_append.mp hr with h | h
          · have := hb r h
            omega
          · simp only [List.mem_singleton] at h
            rw [h, DimRow_key_mk]
            omega

theorem runDimSave_stable {α : Type} (n k : Nat) :
    ∀ (rows : List (Option Nat × Nat × α × Nat)) (dim : List (DimRow α)) (next : Nat),
    (∀ x ∈ rows, (x.2.1 = n ∧ x.1 = some k) ∨ (x.2.1 ≠ n ∧ ∀ k', x.1 = some k' → k' ≠ k)) →
    ((dim.filter (fun r => r.natId == n)).map (fun r => r.key) = [k]) →
    ((dim.map (fun r => r.key)).Nodup) →
    (∀ r ∈ dim, r.key < next) →
    (((runDimSave dim next rows).1.filter (fun r => r.natId == n)).map
        (fun r => r.key) = [k]) ∧
    ((runDimSave dim next rows).1.map (fun r => r.key)).Nodup ∧
    (∀ r ∈ (runDimSave dim next rows).1, r.key < (runDimSave dim next rows).2.1) := by
  intro rows
  induction rows with
  | nil => intro dim next _ ha hnd hb; exact ⟨ha, hnd, hb⟩
  | cons x rest ih =>
    intro dim next hrows ha hnd hb
    obtain ⟨k?, id, a, lu⟩ := x
    obtain ⟨ha', hnd', hb'⟩ := saveDimRow_stable dim next k? id a lu n k ha hnd hb
      (hrows ⟨k?, id, a, lu⟩ (List.mem_cons_self _ _))
    simp only [runDimSave]
    exact ih _ _ (fun y hy => hrows y (List.mem_cons_of_mem _ hy)) ha' hnd' hb'

theorem syncDim_stable {α β : Type} (tr : α → β) (src : List (SrcRow α)) (wm : Nat)
    (dim : List (DimRow β)) (next : Nat) (n k : Nat)
    (ha : (dim.filter (fun r => r.natId == n)).map (fun r => r.key) = [k])
    (hk0 : k ≠ 0)
    (hnd : (dim.map (fun r => r.key)).Nodup)
    (hb : ∀ r ∈ dim, r.key < next) :
    (((syncDim tr src wm dim next (keyMapOf dim)).1.filter
        (fun r => r.natId == n)).map (fun r => r.key) = [k]) ∧
    ((syncDim tr src wm dim next (keyMapOf dim)).1.map (fun r => r.key)).Nodup ∧
    (∀ r ∈ (syncDim tr src wm dim next (keyMapOf dim)).1,
      r.key < (syncDim tr src wm dim next (keyMapOf dim)).2.1) := by
  have hkm : mget (keyMapOf dim) n = some k := mget_keyMapOf_of_filter dim n k ha
  simp only [syncDim]
  split_ifs with hempty
  · exact ⟨ha, hnd, hb⟩
  · simp only
    apply runDimSave_stable n k _ dim next _ ha hnd hb
    intro x hx
    rcases List.mem_map.mp hx with ⟨s, hs, hxs⟩
    subst hxs
    by_cases hid : s.natId = n
    · left
      refine ⟨hid, ?_⟩
      rw [hid, hkm]
      simp [jsKey, hk0]
    · right
      refine ⟨hid, ?_⟩
      intro k' hk' hkk
      rw [hkk] at hk'
      obtain ⟨hmg, -⟩ := jsKey_some _ _ hk'
      obtain ⟨r', hr'm, hr'n, hr'k⟩ := mget_keyMapOf_mem dim s.natId k hmg
      obtain ⟨r0, hf0, hk0'⟩ := filter_singleton_of_map_key dim n k ha
      have hr0 : r0 ∈ dim ∧ r0.natId = n := by
        have : r0 ∈ dim.filter (fun r => r.natId == n) := by rw [hf0]; simp
        have h' := List.mem_filter.mp this
        exact ⟨h'.1, by simpa using h'.2⟩
      have : r' = r0 := List.inj_on_of_nodup_map hnd hr'm hr0.1 (by rw [hr'k, hk0'])
      exact hid (by rw [← hr'n, this, hr0.2])

theorem incremental_nextActorKey (db : SourceDB) (T : Target) (sched : Schedule) :
    (incremental db T sched).T.nextActorKey = (actorRun db T).2.1 := by
  simp only [incremental, actorStep, categoryStep, storeStep, customerStep, filmStep,
    dateStep, bridgeFAStep, bridgeFCStep, factRentalStep, factPaymentStep, actorRun]

theorem incremental_nextCategoryKey (db : SourceDB) (T : Target) (sched : Schedule) :
    (incremental db T sched).T.nextCategoryKey = (categoryRun db T).2.1 := by
  simp only [incremental, actorStep, categoryStep, storeStep, customerStep, filmStep,
    dateStep, bridgeFAStep, bridgeFCStep, factRentalStep, factPaymentStep, categoryRun]
  repeat rw [getWm_saveSync_ne _ _ _ _ (by decide)]

theorem incremental_nextStoreKey (db : SourceDB) (T : Target) (sched : Schedule) :
    (incremental db T sched).T.nextStoreKey = (storeRun db T).2.1 := by
  simp only [incremental, actorStep, categoryStep, storeStep, customerStep, filmStep,
    dateStep, bridgeFAStep, bridgeFCStep, factRentalStep, factPaymentStep, storeRun]
  repeat rw [getWm_saveSync_ne _ _ _ _ (by decide)]

theorem incremental_nextCustomerKey (db : SourceDB) (T : Target) (sched : Schedule) :
    (incremental db T sched).T.nextCustomerKey = (customerRun db T).2.1 := by
  simp only [incremental, actorStep, categoryStep, storeStep, customerStep, filmStep,
    dateStep, bridgeFAStep, bridgeFCStep, factRentalStep, factPaymentStep, customerRun]
  repeat rw [getWm_saveSync_ne _ _ _ _ (by decide)]

theorem incremental_nextFilmKey (db : SourceDB) (T : Target) (sched : Schedule) :
    (incremental db T sched).T.nextFilmKey = (filmRun db T).2.1 := by
  simp only [incremental, actorStep, categoryStep, storeStep, customerStep, filmStep,
    dateStep, bridgeFAStep, bridgeFCStep, factRentalStep, factPaymentStep, filmRun]
  repeat rw [getWm_saveSync_ne _ _ _ _ (by decide)]
theorem filter_of_mget {α : Type} (dim : List (DimRow α)) (n k : Nat)
    (h : mget (keyMapOf dim) n = some k)
    (hnid : (dim.map (fun r => r.natId)).Nodup) :
    (dim.filter (fun r => r.natId == n)).map (fun r => r.key) = [k] := by
  induction dim with
  | nil => simp [keyMapOf, mget] at h
  | cons r rest ih =>
    rw [List.map_cons, List.nodup_cons] at hnid
    by_cases hr : r.natId = n
    · have hrest : ∀ r' ∈ rest, r'.natId ≠ n := by
        intro r' hr' hc
        exact hnid.1 (List.mem_map.mpr ⟨r', hr', by rw [hc, hr]⟩)
      have hnone := mget_keyMapOf_none rest n hrest
      rw [keyMapOf_cons, mget_cons, hnone] at h
      simp only [hr] at h
      rw [if_pos (by simp)] at h
      rw [List.filter_cons_of_pos (by simpa using hr), List.map_cons,
        show rest.filter (fun r => r.natId == n) = [] from by
          rw [List.filter_eq_nil_iff]
          intro r' hr'
          simpa using hrest r' hr']
      simpa using h
    · rw [keyMapOf_cons, mget_cons] at h
      rcases hm : mget (keyMapOf rest) n with - | v
      · rw [hm] at h
        simp only at h
        rw [if_neg (by simpa using hr)] at h
        simp at h
      · rw [hm] at h
        simp only at h
        rw [List.filter_cons_of_neg (by simpa using hr)]
        exact ih (by rw [hm]; exact h) hnid.2

/-- Well-formedness every real analytical dimension satisfies: distinct
surrogate keys, distinct natural keys, keys positive and below the
autoincrement counter. -/
def dimOk {α : Type} (dim : List (DimRow α)) (next : Nat) : Prop :=
  (dim.map (fun r => r.key)).Nodup ∧ (dim.map (fun r => r.natId)).Nodup ∧
  ∀ r ∈ dim, 0 < r.key ∧ r.key < next

instance {α : Type} [DecidableEq α] (dim : List (DimRow α)) (next : Nat) :
    Decidable (dimOk dim next) := by
  unfold dimOk; infer_instance

theorem stable_two_runs {α β : Type} (tr : α → β) (src1 src2 : List (SrcRow α))
    (wm1 wm2 : Nat) (dim : List (DimRow β)) (next : Nat) (n k : Nat)
    (hok : dimOk dim next) (hk : mget (keyMapOf dim) n = some k) :
    mget (keyMapOf (syncDim tr src1 wm1 dim next (keyMapOf dim)).1) n = some k ∧
    (∃ r ∈ (syncDim tr src1 wm1 dim next (keyMapOf dim)).1, r.natId = n ∧ r.key = k) ∧
    mget (keyMapOf (syncDim tr src2 wm2 (syncDim tr src1 wm1 dim next (keyMapOf dim)).1
      (syncDim tr src1 wm1 dim next (keyMapOf dim)).2.1
      (keyMapOf (syncDim tr src1 wm1 dim next (keyMapOf dim)).1)).1) n = some k := by
  obtain ⟨hnd, hnid, hkb⟩ := hok
  have hbounds : ∀ r ∈ dim, r.key < next := fun r hr => (hkb r hr).2
  have hkpos : k ≠ 0 := by
    obtain ⟨r, hrm, -, hrk⟩ := mget_keyMapOf_mem dim n k hk
    have := (hkb r hrm).1
    omega
  have ha0 := filter_of_mget dim n k hk hnid
  obtain ⟨a1, nd1, b1⟩ := syncDim_stable tr src1 wm1 dim next n k ha0 hkpos hnd hbounds
  obtain ⟨a2, nd2, b2⟩ := syncDim_stable tr src2 wm2 _ _ n k a1 hkpos nd1 b1
  have hm1 := mget_keyMapOf_of_filter _ n k a1
  exact ⟨hm1, mget_keyMapOf_mem _ n k hm1, mget_keyMapOf_of_filter _ n k a2⟩

/-- **C2** — key stability: for every dimension, if the well-formed target
maps a natural key to a surrogate key before an incremental run, then
after the run (and after a second successive run) the natural key still
maps to the same surrogate key, and the run's output holds a row bearing
that natural key under that same surrogate key — the upsert updated it in
place rather than inserting a fresh row. -/
theorem claim_C2_key_stability (db : SourceDB) (T0 : Target) (sched1 sched2 : Schedule)
    (hA : dimOk T0.dimActor T0.nextActorKey)
    (hC : dimOk T0.dimCategory T0.nextCategoryKey)
    (hS : dimOk T0.dimStore T0.nextStoreKey)
    (hU : dimOk T0.dimCustomer T0.nextCustomerKey)
    (hF : dimOk T0.dimFilm T0.nextFilmKey) :
    (∀ n k, mget (keyMapOf T0.dimActor) n = some k →
      mget (keyMapOf (incremental db T0 sched1).T.dimActor) n = some k ∧
      (∃ r ∈ (incremental db T0 sched1).T.dimActor, r.natId = n ∧ r.key = k) ∧
      mget (keyMapOf
        (incremental db (incremental db T0 sched1).T sched2).T.dimActor) n = some k) ∧
    (∀ n k, mget (keyMapOf T0.dimCategory) n = some k →
      mget (keyMapOf (incremental db T0 sched1).T.dimCategory) n = some k ∧
      (∃ r ∈ (incremental db T0 sched1).T.dimCategory, r.natId = n ∧ r.key = k) ∧
      mget (keyMapOf
        (incremental db (incremental db T0 sched1).T sched2).T.dimCategory) n = some k) ∧
    (∀ n k, mget (keyMapOf T0.dimStore) n = some k →
      mget (keyMapOf (incremental db T0 sched1).T.dimStore) n = some k ∧
      (∃ r ∈ (incremental db T0 sched1).T.dimStore, r.natId = n ∧ r.key = k) ∧
      mget (keyMapOf
        (incremental db (incremental db T0 sched1).T sched2).T.dimStore) n = some k) ∧
    (∀ n k, mget (keyMapOf T0.dimCustomer) n = some k →
      mget (keyMapOf (incremental db T0 sched1).T.dimCustomer) n = some k ∧
      (∃ r ∈ (incremental db T0 sched1).T.dimCustomer, r.natId = n ∧ r.key = k) ∧
      mget (keyMapOf
        (incremental db (incremental db T0 sched1).T sched2).T.dimCustomer) n = some k) ∧
    (∀ n k, mget (keyMapOf T0.dimFilm) n = some k →
      mget (keyMapOf (incremental db T0 sched1).T.dimFilm) n = some k ∧
      (∃ r ∈ (incremental db T0 sched1).T.dimFilm, r.natId = n ∧ r.key = k) ∧
      mget (keyMapOf
        (incremental db (incremental db T0 sched1).T sched2).T.dimFilm) n = some k) := by
  refine ⟨?_, ?_, ?_, ?_, ?_⟩
  · intro n k hk
    rw [incremental_dimActor db (incremental db T0 sched1).T sched2]
    simp only [actorRun]
    rw [incremental_dimActor db T0 sched1, incremental_nextActorKey db T0 sched1]
    simp only [actorRun]
    exact stable_two_runs actorTransform db.actors db.actors (getWm T0.syncState "actor")
      (getWm (incremental db T0 sched1).T.syncState "actor")
      T0.dimActor T0.nextActorKey n k hA hk
  · intro n k hk
    rw [incremental_dimCategory db (incremental db T0 sched1).T sched2]
    simp only [categoryRun]
    rw [incremental_dimCategory db T0 sched1, incremental_nextCategoryKey db T0 sched1]
    simp only [categoryRun]
    exact stable_two_runs categoryTransform db.categories db.categories (getWm T0.syncState "category")
      (getWm (incremental db T0 sched1).T.syncState "category")
      T0.dimCategory T0.nextCategoryKey n k hC hk
  · intro n k hk
    rw [incremental_dimStore db (incremental db T0 sched1).T sched2]
    simp only [storeRun]
    rw [incremental_dimStore db T0 sched1, incremental_nextStoreKey db T0 sched1]
    simp only [storeRun]
    exact stable_two_runs storeTransform db.stores db.stores (getWm T0.syncState "store")
      (getWm (incremental db T0 sched1).T.syncState "store")
      T0.dimStore T0.nextStoreKey n k hS hk
  · intro n k hk
    rw [incremental_dimCustomer db (incremental db T0 sched1).T sched2]
    simp only [customerRun]
    rw [incremental_dimCustomer db T0 sched1, incremental_nextCustomerKey db T0 sched1]
    simp only [customerRun]
    exact stable_two_runs customerTransform db.customers db.customers (getWm T0.syncState "customer")
      (getWm (incremental db T0 sched1).T.syncState "customer")
      T0.dimCustomer T0.nextCustomerKey n k hU hk
  · intro n k hk
    rw [incremental_dimFilm db (incremental db T0 sched1).T sched2]
    simp only [filmRun]
    rw [incremental_dimFilm db T0 sched1, incremental_nextFilmKey db T0 sched1]
    simp only [filmRun]
    exact stable_two_runs filmTransform db.films db.films (getWm T0.syncState "film")
      (getWm (incremental db T0 sched1).T.syncState "film")
      T0.dimFilm T0.nextFilmKey n k hF hk

/-- A well-formed non-empty analytical store whose five dimensions each
hold the natural key 1 under surrogate key 1. -/
def t0W : Target :=
  { dimActor := [⟨1, 1, ⟨"A", "B"⟩, 10⟩]
    dimCategory := [⟨1, 1, ⟨"C"⟩, 10⟩]
    dimStore := [⟨1, 1, ⟨"X", "Y"⟩, 10⟩]
    dimCustomer := [⟨1, 1, ⟨"A", "B", true, "X", "Y"⟩, 10⟩]
    dimFilm := [⟨1, 1, ⟨"F", some "PG", some 90, "E", some 2006⟩, 10⟩]
    dimDate := [], bridgeFilmActor := [], bridgeFilmCategory := []
    factRental := [], factPayment := [], syncState := []
    nextActorKey := 2, nextCategoryKey := 2, nextStoreKey := 2, nextCustomerKey := 2
    nextFilmKey := 2, nextFactRentalKey := 1, nextFactPaymentKey := 1 }

/-- Witness for C2: actor 1 of `dbW` is re-synchronized by both runs (its
`lastUpdate` 50 exceeds the initial watermark) and keeps surrogate key 1. -/
theorem claim_C2_witness :
    dimOk t0W.dimActor t0W.nextActorKey ∧
    mget (keyMapOf t0W.dimActor) 1 = some 1 ∧
    (mget (keyMapOf (incremental dbW t0W schedW1).T.dimActor) 1 = some 1 ∧
     (∃ r ∈ (incremental dbW t0W schedW1).T.dimActor, r.natId = 1 ∧ r.key = 1) ∧
     mget (keyMapOf
       (incremental dbW (incremental dbW t0W schedW1).T schedW2).T.dimActor) 1 = some 1) :=
  ⟨by decide, by decide,
   (claim_C2_key_stability dbW t0W schedW1 schedW2 (by decide) (by decide) (by decide)
      (by decide) (by decide)).1 1 1 (by decide)⟩

/-! ## Referential integrity -/

def dimHasKey {α : Type} (dim : List (DimRow α)) (k : Nat) : Prop :=
  ∃ r ∈ dim, r.key = k

instance {α : Type} (dim : List (DimRow α)) (k : Nat) : Decidable (dimHasKey dim k) := by
  unfold dimHasKey; infer_instance

/-- Every foreign surrogate key of every bridge and fact row refers to an
existing row of its target dimension. -/
def refIntact (T : Target) : Prop :=
  (∀ b ∈ T.bridgeFilmActor,
    dimHasKey T.dimFilm b.filmKey ∧ dimHasKey T.dimActor b.actorKey) ∧
  (∀ b ∈ T.bridgeFilmCategory,
    dimHasKey T.dimFilm b.filmKey ∧ dimHasKey T.dimCategory b.categoryKey) ∧
  (∀ f ∈ T.factRental, dimHasKey T.dimCustomer f.customerKey ∧
    dimHasKey T.dimFilm f.filmKey ∧ dimHasKey T.dimStore f.storeKey) ∧
  (∀ f ∈ T.factPayment,
    dimHasKey T.dimCustomer f.customerKey ∧ dimHasKey T.dimStore f.storeKey)

instance (T : Target) : Decidable (refIntact T) := by
  unfold refIntact; infer_instance

theorem saveDimRow_hasKey {α : Type} (dim : List (DimRow α)) (next : Nat)
    (key? : Option Nat) (id : Nat) (a : α) (lu : Nat) (k : Nat)
    (h : dimHasKey dim k) : dimHasKey (saveDimRow dim next key? id a lu).1 k := by
  obtain ⟨r, hr, hk⟩ := h
  cases key? with
  | none => exact ⟨r, by simp [saveDimRow, hr], hk⟩
  | some k0 =>
    by_cases hex : dim.any (fun r => r.key == k0)
    · simp only [saveDimRow, if_pos hex]
      by_cases h0 : r.key = k0
      · refine ⟨⟨k0, id, a, lu⟩, List.mem_map.mpr ⟨r, hr, ?_⟩, by rw [DimRow_key_mk, ← h0, hk]⟩
        rw [if_pos (show ((r.key == k0) = true) by simpa using h0)]
      · refine ⟨r, List.mem_map.mpr ⟨r, hr, ?_⟩, hk⟩
        rw [if_neg (show ¬((r.key == k0) = true) by simpa using h0)]
    · simp only [saveDimRow, if_neg hex]
      exact ⟨r, by simp [hr], hk⟩

theorem saveDimRow_savedKey {α : Type} (dim : List (DimRow α)) (next : Nat)
    (key? : Option Nat) (id : Nat) (a : α) (lu : Nat) :
    dimHasKey (saveDimRow dim next key? id a lu).1 (saveDimRow dim next key? id a lu).2.2 := by
  cases key? with
  | none => exact ⟨⟨next, id, a, lu⟩, by simp [saveDimRow], rfl⟩
  | some k0 =>
    by_cases hex : dim.any (fun r => r.key == k0)
    · simp only [saveDimRow, if_pos hex]
      rcases List.any_eq_true.mp hex with ⟨r, hr, hk⟩
      refine ⟨⟨k0, id, a, lu⟩, List.mem_map.mpr ⟨r, hr, ?_⟩, rfl⟩
      rw [if_pos hk]
    · simp only [saveDimRow, if_neg hex]
      exact ⟨⟨k0, id, a, lu⟩, by simp, rfl⟩

theorem runDimSave_hasKey {α : Type} (rows : List (Option Nat × Nat × α × Nat)) :
    ∀ (dim : List (DimRow α)) (next k : Nat), dimHasKey dim k →
    dimHasKey (runDimSave dim next rows).1 k := by
  induction rows with
  | nil => intro dim next k h; exact h
  | cons x rest ih =>
    intro dim next k h
    obtain ⟨k?, id, a, lu⟩ := x
    simp only [runDimSave]
    exact ih _ _ k (saveDimRow_hasKey dim next k? id a lu k h)

theorem runDimSave_pairs {α : Type} (rows : List (Option Nat × Nat × α × Nat)) :
    ∀ (dim : List (DimRow α)) (next : Nat), ∀ p ∈ (runDimSave dim next rows).2.2,
    dimHasKey (runDimSave dim next rows).1 p.2 := by
  induction rows with
  | nil => intro dim next p hp; simp [runDimSave] at hp
  | cons x rest ih =>
    intro dim next p hp
    obtain ⟨k?, id, a, lu⟩ := x
    simp only [runDimSave] at hp ⊢
    rcases List.mem_cons.mp hp with h | h
    · rw [h]
      exact runDimSave_hasKey rest _ _ _ (saveDimRow_savedKey dim next k? id a lu)
    · exact ih _ _ p h

theorem mget_mem (m : List (Nat × Nat)) (x v : Nat) (h : mget m x = some v) :
    (x, v) ∈ m := by
  induction m with
  | nil => simp [mget] at h
  | cons p rest ih =>
    rw [mget_cons] at h
    rcases hm : mget rest x with - | w
    · rw [hm] at h
      simp only at h
      split_ifs at h with hp
      have h1 : p.1 = x := by simpa using hp
      have h2 : p.2 = v := by simpa using h
      have hpv : p = (x, v) := by
        rw [Prod.ext_iff]
        exact ⟨h1, h2⟩
      rw [← hpv]
      exact List.mem_cons_self p rest
    · rw [hm] at h
      simp only at h
      right
      exact ih (by rw [hm]; exact h)

theorem mget_append (m1 m2 : List (Nat × Nat)) (x : Nat) :
    mget (m1 ++ m2) x = match mget m2 x with
      | some v => some v
      | none => mget m1 x := by
  induction m1 with
  | nil =>
    simp only [List.nil_append]
    rcases hm : mget m2 x with - | v <;> rfl
  | cons p rest ih =>
    rw [List.cons_append, mget_cons, ih, mget_cons]
    cases mget m2 x <;> cases mget rest x <;> simp

/-- Validity of a key map relative to a dimension: every mapped value is
the surrogate key of some row. -/
def mapValid {α : Type} (m : List (Nat × Nat)) (dim : List (DimRow α)) : Prop :=
  ∀ x v, mget m x = some v → dimHasKey dim v

theorem mapValid_keyMapOf {α : Type} (dim : List (DimRow α)) :
    mapValid (keyMapOf dim) dim := by
  intro x v h
  obtain ⟨r, hr, -, hk⟩ := mget_keyMapOf_mem dim x v h
  exact ⟨r, hr, hk⟩

theorem syncDim_hasKey {α β : Type} (tr : α → β) (src : List (SrcRow α)) (wm : Nat)
    (dim : List (DimRow β)) (next : Nat) (kmap : List (Nat × Nat)) (k : Nat)
    (h : dimHasKey dim k) : dimHasKey (syncDim tr src wm dim next kmap).1 k := by
  simp only [syncDim]
  split_ifs with hempty
  · exact h
  · exact runDimSave_hasKey _ dim next k h

theorem syncDim_mapValid {α β : Type} (tr : α → β) (src : List (SrcRow α)) (wm : Nat)
    (dim : List (DimRow β)) (next : Nat) (kmap : List (Nat × Nat))
    (h : mapValid kmap dim) :
    mapValid (syncDim tr src wm dim next kmap).2.2 (syncDim tr src wm dim next kmap).1 := by
  simp only [syncDim]
  split_ifs with hempty
  · exact h
  · intro x v hxv
    simp only at hxv ⊢
    rw [mget_append] at hxv
    rcases hm : mget (runDimSave dim next (List.map (fun s =>
        (jsKey (mget kmap s.natId), s.natId, tr s.attrs, s.lastUpdate))
        (List.filter (fun s => decide (wm < s.lastUpdate)) src))).2.2 x with - | w
    · rw [hm] at hxv
      simp only at hxv
      obtain ⟨r, hr, hk⟩ := h x v hxv
      exact runDimSave_hasKey _ dim next v ⟨r, hr, hk⟩
    · rw [hm] at hxv
      simp only [Option.some.injEq] at hxv
      subst hxv
      exact runDimSave_pairs _ dim next (x, w) (mget_mem _ x w hm)

theorem mget_of_getD_ne (m : List (Nat × Nat)) (x v : Nat)
    (h : (mget m x).getD 0 = v) (hv : v ≠ 0) : mget m x = some v := by
  rcases hm : mget m x with - | w
  · rw [hm] at h
    simp at h
    omega
  · rw [hm] at h
    simpa using h

theorem saveBridgeFA_mem (b : List BridgeFilmActor) (fk ak : Nat)
    (x : BridgeFilmActor) (hx : x ∈ saveBridgeFA b fk ak) :
    x ∈ b ∨ x = ⟨fk, ak⟩ := by
  unfold saveBridgeFA at hx
  split_ifs at hx
  · exact Or.inl hx
  · rcases List.mem_append.mp hx with h | h
    · exact Or.inl h
    · exact Or.inr (by simpa using h)

theorem bridgeFAPass_mem (src : List SrcFilmActor) (wm : Nat)
    (fm am : List (Nat × Nat)) (b0 : List BridgeFilmActor)
    (x : BridgeFilmActor) (hx : x ∈ bridgeFAPass src wm fm am b0) :
    x ∈ b0 ∨ ∃ p ∈ bridgeFAToSave src wm fm am, x = ⟨p.1, p.2⟩ := by
  unfold bridgeFAPass at hx
  split_ifs at hx with h
  · exact Or.inl hx
  · have haux : ∀ (ps : List (Nat × Nat)) (b : List BridgeFilmActor),
        x ∈ ps.foldl (fun acc p => saveBridgeFA acc p.1 p.2) b →
        x ∈ b ∨ ∃ p ∈ ps, x = BridgeFilmActor.mk p.1 p.2 := by
      intro ps
      induction ps with
      | nil => intro b hb; exact Or.inl hb
      | cons p rest ih =>
        intro b hb
        simp only [List.foldl_cons] at hb
        rcases ih _ hb with h' | ⟨q, hq, hxq⟩
        · rcases saveBridgeFA_mem _ _ _ _ h' with h'' | h''
          · exact Or.inl h''
          · exact Or.inr ⟨p, List.mem_cons_self p rest, h''⟩
        · exact Or.inr ⟨q, List.mem_cons_of_mem p hq, hxq⟩
    exact haux _ b0 hx

theorem saveBridgeFC_mem (b : List BridgeFilmCategory) (fk ck : Nat)
    (x : BridgeFilmCategory) (hx : x ∈ saveBridgeFC b fk ck) :
    x ∈ b ∨ x = ⟨fk, ck⟩ := by
  unfold saveBridgeFC at hx
  split_ifs at hx
  · exact Or.inl hx
  · rcases List.mem_append.mp hx with h | h
    · exact Or.inl h
    · exact Or.inr (by simpa using h)

theorem bridgeFCPass_mem (src : List SrcFilmCategory) (wm : Nat)
    (fm cm : List (Nat × Nat)) (b0 : List BridgeFilmCategory)
    (x : BridgeFilmCategory) (hx : x ∈ bridgeFCPass src wm fm cm b0) :
    x ∈ b0 ∨ ∃ p ∈ bridgeFCToSave src wm fm cm, x = ⟨p.1, p.2⟩ := by
  unfold bridgeFCPass at hx
  split_ifs at hx with h
  · exact Or.inl hx
  · have haux : ∀ (ps : List (Nat × Nat)) (b : List BridgeFilmCategory),
        x ∈ ps.foldl (fun acc p => saveBridgeFC acc p.1 p.2) b →
        x ∈ b ∨ ∃ p ∈ ps, x = BridgeFilmCategory.mk p.1 p.2 := by
      intro ps
      induction ps with
      | nil => intro b hb; exact Or.inl hb
      | cons p rest ih =>
        intro b hb
        simp only [List.foldl_cons] at hb
        rcases ih _ hb with h' | ⟨q, hq, hxq⟩
        · rcases saveBridgeFC_mem _ _ _ _ h' with h'' | h''
          · exact Or.inl h''
          · exact Or.inr ⟨p, List.mem_cons_self p rest, h''⟩
        · exact Or.inr ⟨q, List.mem_cons_of_mem p hq, hxq⟩
    exact haux _ b0 hx

theorem factRentalPass_mem_res (src : List SrcRental) (wm : Nat)
    (cm fm sm : List (Nat × Nat)) (facts0 : List FactRental) (next0 : Nat)
    (f : FactRental) (hf : f ∈ (factRentalPass src wm cm fm sm facts0 next0).1) :
    f ∈ facts0 ∨ ∃ r, rentalResolved cm fm sm r = true ∧
      ∃ k, f = mkFactRental cm fm sm r k := by
  unfold factRentalPass at hf
  split_ifs at hf with hempty
  · exact Or.inl hf
  · simp only at hf
    rcases factRentalFold_mem cm fm sm facts0 _ _ f hf with h | ⟨r, hr, k, hk⟩
    · exact Or.inl h
    · have hres : r ∈ src ∧ rentalResolved cm fm sm r = true ∧ rentalChanged wm r = true := by
        simpa [factRentalToSave] using hr
      exact Or.inr ⟨r, hres.2.1, k, hk⟩

theorem saveFactPayment_mem (facts : List FactPayment) (next : Nat) (key? : Option Nat)
    (row : Nat → FactPayment) (f : FactPayment)
    (hf : f ∈ (saveFactPayment facts next key? row).1) :
    f ∈ facts ∨ ∃ k, f = row k := by
  cases key? with
  | none =>
    simp only [saveFactPayment] at hf
    rcases List.mem_append.mp hf with h | h
    · exact Or.inl h
    · exact Or.inr ⟨next, by simpa using h⟩
  | some k =>
    simp only [saveFactPayment] at hf
    by_cases hex : facts.any (fun g => g.factPaymentKey == k)
    · rw [if_pos hex] at hf
      rcases List.mem_map.mp hf with ⟨g, hg, hfg⟩
      by_cases hk : g.factPaymentKey == k
      · rw [if_pos hk] at hfg
        exact Or.inr ⟨k, hfg.symm⟩
      · rw [if_neg hk] at hfg
        exact Or.inl (hfg ▸ hg)
    · rw [if_neg hex] at hf
      rcases List.mem_append.mp hf with h | h
      · exact Or.inl h
      · exact Or.inr ⟨k, by simpa using h⟩

theorem factPaymentFold_mem (cm sm : List (Nat × Nat)) (facts0 : List FactPayment)
    (rows : List SrcPayment) : ∀ (acc : List FactPayment × Nat) (f : FactPayment),
    f ∈ (rows.foldl (fun (acc : List FactPayment × Nat) pp =>
      saveFactPayment acc.1 acc.2 ((facts0.find? (fun g => g.paymentId == pp.paymentId)).map
        (fun g => g.factPaymentKey)) (mkFactPayment cm sm pp)) acc).1 →
    f ∈ acc.1 ∨ ∃ p ∈ rows, ∃ k, f = mkFactPayment cm sm p k := by
  induction rows with
  | nil => intro acc f hf; exact Or.inl hf
  | cons p rest ih =>
    intro acc f hf
    simp only [List.foldl_cons] at hf
    rcases ih _ f hf with h | ⟨p', hp', k, hk⟩
    · rcases saveFactPayment_mem _ _ _ _ _ h with h' | ⟨k, hk⟩
      · exact Or.inl h'
      · exact Or.inr ⟨p, List.mem_cons_self p rest, k, hk⟩
    · exact Or.inr ⟨p', List.mem_cons_of_mem p hp', k, hk⟩

theorem factPaymentPass_mem_res (src : List SrcPayment) (wm : Nat)
    (cm sm : List (Nat × Nat)) (facts0 : List FactPayment) (next0 : Nat)
    (f : FactPayment) (hf : f ∈ (factPaymentPass src wm cm sm facts0 next0).1) :
    f ∈ facts0 ∨ ∃ p, paymentResolved cm sm p = true ∧
      ∃ k, f = mkFactPayment cm sm p k := by
  unfold factPaymentPass at hf
  split_ifs at hf with hempty
  · exact Or.inl hf
  · simp only at hf
    rcases factPaymentFold_mem cm sm facts0 _ _ f hf with h | ⟨p, hp, k, hk⟩
    · exact Or.inl h
    · have hres : p ∈ src ∧ paymentResolved cm sm p = true ∧ paymentChanged wm p = true := by
        simpa [factPaymentToSave] using hp
      exact Or.inr ⟨p, hres.2.1, k, hk⟩

theorem bridgeFAToSave_keys (src : List SrcFilmActor) (wm : Nat)
    (fm am : List (Nat × Nat)) (p : Nat × Nat) (hp : p ∈ bridgeFAToSave src wm fm am) :
    (∃ i, mget fm i = some p.1) ∧ (∃ j, mget am j = some p.2) := by
  unfold bridgeFAToSave at hp
  obtain ⟨hmap, hcond⟩ := List.mem_filter.mp hp
  obtain ⟨s, hs, hsp⟩ := List.mem_map.mp hmap
  have hc : p.1 ≠ 0 ∧ p.2 ≠ 0 := by simpa using hcond
  refine ⟨⟨s.filmId, mget_of_getD_ne fm s.filmId p.1 ?_ hc.1⟩,
          ⟨s.actorId, mget_of_getD_ne am s.actorId p.2 ?_ hc.2⟩⟩
  · rw [← hsp]
  · rw [← hsp]

theorem bridgeFCToSave_keys (src : List SrcFilmCategory) (wm : Nat)
    (fm cm : List (Nat × Nat)) (p : Nat × Nat) (hp : p ∈ bridgeFCToSave src wm fm cm) :
    (∃ i, mget fm i = some p.1) ∧ (∃ j, mget cm j = some p.2) := by
  unfold bridgeFCToSave at hp
  obtain ⟨hmap, hcond⟩ := List.mem_filter.mp hp
  obtain ⟨s, hs, hsp⟩ := List.mem_map.mp hmap
  have hc : p.1 ≠ 0 ∧ p.2 ≠ 0 := by simpa using hcond
  refine ⟨⟨s.filmId, mget_of_getD_ne fm s.filmId p.1 ?_ hc.1⟩,
          ⟨s.categoryId, mget_of_getD_ne cm s.categoryId p.2 ?_ hc.2⟩⟩
  · rw [← hsp]
  · rw [← hsp]

theorem mkFactRental_keys (cm fm sm : List (Nat × Nat)) (r : SrcRental) (k : Nat)
    (h : rentalResolved cm fm sm r = true) :
    mget cm r.customerId = some (mkFactRental cm fm sm r k).customerKey ∧
    mget fm r.inventoryFilmId = some (mkFactRental cm fm sm r k).filmKey ∧
    mget sm r.inventoryStoreId = some (mkFactRental cm fm sm r k).storeKey := by
  unfold rentalResolved at h
  simp only [Bool.and_eq_true, bne_iff_ne, ne_eq] at h
  exact ⟨mget_of_getD_ne _ _ _ rfl h.1.1, mget_of_getD_ne _ _ _ rfl h.1.2,
    mget_of_getD_ne _ _ _ rfl h.2⟩

theorem mkFactPayment_keys (cm sm : List (Nat × Nat)) (p : SrcPayment) (k : Nat)
    (h : paymentResolved cm sm p = true) :
    mget cm p.customerId = some (mkFactPayment cm sm p k).customerKey ∧
    mget sm p.staffStoreId = some (mkFactPayment cm sm p k).storeKey := by
  unfold paymentResolved at h
  simp only [Bool.and_eq_true, bne_iff_ne, ne_eq] at h
  exact ⟨mget_of_getD_ne _ _ _ rfl h.1, mget_of_getD_ne _ _ _ rfl h.2⟩

/-- **Incremental preserves referential integrity**: dimension upserts only
update rows in place or insert new ones (surrogate keys are never removed),
and every new bridge or fact row stores keys resolved through a key map
whose values exist in the final dimensions. -/
theorem incremental_refIntact (db : SourceDB) (T : Target) (sched : Schedule)
    (h : refIntact T) : refIntact (incremental db T sched).T := by
  obtain ⟨hBA, hBC, hFR, hFP⟩ := h
  have growF : ∀ k, dimHasKey T.dimFilm k →
      dimHasKey (incremental db T sched).T.dimFilm k := by
    intro k hk
    rw [incremental_dimFilm]
    simp only [filmRun]
    exact syncDim_hasKey _ _ _ _ _ _ k hk
  have growA : ∀ k, dimHasKey T.dimActor k →
      dimHasKey (incremental db T sched).T.dimActor k := by
    intro k hk
    rw [incremental_dimActor]
    simp only [actorRun]
    exact syncDim_hasKey _ _ _ _ _ _ k hk
  have growC : ∀ k, dimHasKey T.dimCategory k →
      dimHasKey (incremental db T sched).T.dimCategory k := by
    intro k hk
    rw [incremental_dimCategory]
    simp only [categoryRun]
    exact syncDim_hasKey _ _ _ _ _ _ k hk
  have growU : ∀ k, dimHasKey T.dimCustomer k →
      dimHasKey (incremental db T sched).T.dimCustomer k := by
    intro k hk
    rw [incremental_dimCustomer]
    simp only [customerRun]
    exact syncDim_hasKey _ _ _ _ _ _ k hk
  have growS : ∀ k, dimHasKey T.dimStore k →
      dimHasKey (incremental db T sched).T.dimStore k := by
    intro k hk
    rw [incremental_dimStore]
    simp only [storeRun]
    exact syncDim_hasKey _ _ _ _ _ _ k hk
  have validF : mapValid (filmRun db T).2.2 (incremental db T sched).T.dimFilm := by
    rw [incremental_dimFilm]
    simp only [filmRun]
    exact syncDim_mapValid _ _ _ _ _ _ (mapValid_keyMapOf _)
  have validA : mapValid (actorRun db T).2.2 (incremental db T sched).T.dimActor := by
    rw [incremental_dimActor]
    simp only [actorRun]
    exact syncDim_mapValid _ _ _ _ _ _ (mapValid_keyMapOf _)
  have validC : mapValid (categoryRun db T).2.2 (incremental db T sched).T.dimCategory := by
    rw [incremental_dimCategory]
    simp only [categoryRun]
    exact syncDim_mapValid _ _ _ _ _ _ (mapValid_keyMapOf _)
  have validU : mapValid (customerRun db T).2.2 (incremental db T sched).T.dimCustomer := by
    rw [incremental_dimCustomer]
    simp only [customerRun]
    exact syncDim_mapValid _ _ _ _ _ _ (mapValid_keyMapOf _)
  have validS : mapValid (storeRun db T).2.2 (incremental db T sched).T.dimStore := by
    rw [incremental_dimStore]
    simp only [storeRun]
    exact syncDim_mapValid _ _ _ _ _ _ (mapValid_keyMapOf _)
  refine ⟨?_, ?_, ?_, ?_⟩
  · intro b hb
    rw [incremental_bridgeFA, bridgeFARun] at hb
    rcases bridgeFAPass_mem _ _ _ _ _ b hb with hold | ⟨p, hp, hbp⟩
    · exact ⟨growF _ (hBA b hold).1, growA _ (hBA b hold).2⟩
    · obtain ⟨⟨i, hi⟩, ⟨j, hj⟩⟩ := bridgeFAToSave_keys _ _ _ _ p hp
      subst hbp
      exact ⟨validF i p.1 hi, validA j p.2 hj⟩
  · intro b hb
    rw [incremental_bridgeFC, bridgeFCRun] at hb
    rcases bridgeFCPass_mem _ _ _ _ _ b hb with hold | ⟨p, hp, hbp⟩
    · exact ⟨growF _ (hBC b hold).1, growC _ (hBC b hold).2⟩
    · obtain ⟨⟨i, hi⟩, ⟨j, hj⟩⟩ := bridgeFCToSave_keys _ _ _ _ p hp
      subst hbp
      exact ⟨validF i p.1 hi, validC j p.2 hj⟩
  · intro f hf
    rw [incremental_factRental, factRentalRun] at hf
    rcases factRentalPass_mem_res _ _ _ _ _ _ _ f hf with hold | ⟨r, hres, k, hk⟩
    · exact ⟨growU _ (hFR f hold).1, growF _ (hFR f hold).2.1, growS _ (hFR f hold).2.2⟩
    · obtain ⟨h1, h2, h3⟩ := mkFactRental_keys _ _ _ r k hres
      subst hk
      exact ⟨validU _ _ h1, validF _ _ h2, validS _ _ h3⟩
  · intro f hf
    rw [incremental_factPayment, factPaymentRun] at hf
    rcases factPaymentPass_mem_res _ _ _ _ _ _ f hf with hold | ⟨p, hres, k, hk⟩
    · exact ⟨growU _ (hFP f hold).1, growS _ (hFP f hold).2⟩
    · obtain ⟨h1, h2⟩ := mkFactPayment_keys _ _ p k hres
      subst hk
      exact ⟨validU _ _ h1, validS _ _ h2⟩

theorem insertDims_hasKey {α β : Type} (tr : α → β) (src : List (SrcRow α)) :
    ∀ (dim : List (DimRow β)) (next k : Nat), dimHasKey dim k →
    dimHasKey (insertDims tr src dim next).1 k := by
  induction src with
  | nil => intro dim next k h; exact h
  | cons s rest ih =>
    intro dim next k h
    obtain ⟨r, hr, hk⟩ := h
    simp only [insertDims, List.foldl_cons]
    exact ih (dim ++ [⟨next, s.natId, tr s.attrs, s.lastUpdate⟩]) (next + 1) k
      ⟨r, List.mem_append_left _ hr, hk⟩

theorem pairs_keys {γ : Type} (rows : List γ) (fm am : List (Nat × Nat))
    (fid aid : γ → Nat) (p : Nat × Nat)
    (hp : p ∈ (rows.map (fun s =>
        ((mget fm (fid s)).getD 0, (mget am (aid s)).getD 0))).filter
      (fun p => p.1 != 0 && p.2 != 0)) :
    (∃ i, mget fm i = some p.1) ∧ (∃ j, mget am j = some p.2) := by
  obtain ⟨hmap, hcond⟩ := List.mem_filter.mp hp
  obtain ⟨s, hs, hsp⟩ := List.mem_map.mp hmap
  have hc : p.1 ≠ 0 ∧ p.2 ≠ 0 := by simpa using hcond
  refine ⟨⟨fid s, mget_of_getD_ne fm (fid s) p.1 ?_ hc.1⟩,
          ⟨aid s, mget_of_getD_ne am (aid s) p.2 ?_ hc.2⟩⟩
  · rw [← hsp]
  · rw [← hsp]

theorem fullLoadRental_mem (um fm sm : List (Nat × Nat)) (rows : List SrcRental) :
    ∀ (acc : List FactRental × Nat) (f : FactRental),
    f ∈ (rows.foldl (fun (acc : List FactRental × Nat) r =>
      (acc.1 ++ [mkFactRental um fm sm r acc.2], acc.2 + 1)) acc).1 →
    f ∈ acc.1 ∨ ∃ r ∈ rows, ∃ k, f = mkFactRental um fm sm r k := by
  induction rows with
  | nil => intro acc f hf; exact Or.inl hf
  | cons r rest ih =>
    intro acc f hf
    simp only [List.foldl_cons] at hf
    rcases ih _ f hf with h | ⟨r', hr', k, hk⟩
    · rcases List.mem_append.mp h with h' | h'
      · exact Or.inl h'
      · simp only [List.mem_singleton] at h'
        exact Or.inr ⟨r, List.mem_cons_self r rest, acc.2, h'⟩
    · exact Or.inr ⟨r', List.mem_cons_of_mem r hr', k, hk⟩

theorem fullLoadPayment_mem (um sm : List (Nat × Nat)) (rows : List SrcPayment) :
    ∀ (acc : List FactPayment × Nat) (f : FactPayment),
    f ∈ (rows.foldl (fun (acc : List FactPayment × Nat) p =>
      (acc.1 ++ [mkFactPayment um sm p acc.2], acc.2 + 1)) acc).1 →
    f ∈ acc.1 ∨ ∃ p ∈ rows, ∃ k, f = mkFactPayment um sm p k := by
  induction rows with
  | nil => intro acc f hf; exact Or.inl hf
  | cons p rest ih =>
    intro acc f hf
    simp only [List.foldl_cons] at hf
    rcases ih _ f hf with h | ⟨p', hp', k, hk⟩
    · rcases List.mem_append.mp h with h' | h'
      · exact Or.inl h'
      · simp only [List.mem_singleton] at h'
        exact Or.inr ⟨p, List.mem_cons_self p rest, acc.2, h'⟩
    · exact Or.inr ⟨p', List.mem_cons_of_mem p hp', k, hk⟩

/-- **Full load preserves referential integrity**: bridges and facts are
built only from key maps read back from the freshly inserted dimensions,
and rows with an unresolved (falsy) key are filtered out before insert. -/
theorem fullLoad_refIntact (db : SourceDB) (T : Target) (now : Nat)
    (h : refIntact T) : refIntact (fullLoad db T now) := by
  obtain ⟨hBA, hBC, hFR, hFP⟩ := h
  simp only [fullLoad, refIntact]
  refine ⟨?_, ?_, ?_, ?_⟩
  · intro b hb
    rcases List.mem_append.mp hb with hold | hnew
    · exact ⟨insertDims_hasKey _ _ _ _ _ (hBA b hold).1,
        insertDims_hasKey _ _ _ _ _ (hBA b hold).2⟩
    · obtain ⟨p, hp, hbp⟩ := List.mem_map.mp hnew
      obtain ⟨⟨i, hi⟩, ⟨j, hj⟩⟩ := pairs_keys db.filmActors _ _ _ _ p hp
      rw [← hbp]
      exact ⟨mapValid_keyMapOf _ i p.1 hi, mapValid_keyMapOf _ j p.2 hj⟩
  · intro b hb
    rcases List.mem_append.mp hb with hold | hnew
    · exact ⟨insertDims_hasKey _ _ _ _ _ (hBC b hold).1,
        insertDims_hasKey _ _ _ _ _ (hBC b hold).2⟩
    · obtain ⟨p, hp, hbp⟩ := List.mem_map.mp hnew
      obtain ⟨⟨i, hi⟩, ⟨j, hj⟩⟩ := pairs_keys db.filmCategories _ _ _ _ p hp
      rw [← hbp]
      exact ⟨mapValid_keyMapOf _ i p.1 hi, mapValid_keyMapOf _ j p.2 hj⟩
  · intro f hf
    rcases fullLoadRental_mem _ _ _ _ _ f hf with hold | ⟨r, hr, k, hk⟩
    · exact ⟨insertDims_hasKey _ _ _ _ _ (hFR f hold).1,
        insertDims_hasKey _ _ _ _ _ (hFR f hold).2.1,
        insertDims_hasKey _ _ _ _ _ (hFR f hold).2.2⟩
    · have hres : rentalResolved
          (keyMapOf (insertDims customerTransform db.customers T.dimCustomer
            T.nextCustomerKey).1)
          (keyMapOf (insertDims filmTransform db.films T.dimFilm T.nextFilmKey).1)
          (keyMapOf (insertDims storeTransform db.stores T.dimStore T.nextStoreKey).1)
          r = true := (List.mem_filter.mp hr).2
      obtain ⟨h1, h2, h3⟩ := mkFactRental_keys _ _ _ r k hres
      subst hk
      exact ⟨mapValid_keyMapOf _ _ _ h1, mapValid_keyMapOf _ _ _ h2,
        mapValid_keyMapOf _ _ _ h3⟩
  · intro f hf
    rcases fullLoadPayment_mem _ _ _ _ f hf with hold | ⟨p, hp, k, hk⟩
    · exact ⟨insertDims_hasKey _ _ _ _ _ (hFP f hold).1,
        insertDims_hasKey _ _ _ _ _ (hFP f hold).2⟩
    · have hres : paymentResolved
          (keyMapOf (insertDims customerTransform db.customers T.dimCustomer
            T.nextCustomerKey).1)
          (keyMapOf (insertDims storeTransform db.stores T.dimStore T.nextStoreKey).1)
          p = true := (List.mem_filter.mp hp).2
      obtain ⟨h1, h2⟩ := mkFactPayment_keys _ _ p k hres
      subst hk
      exact ⟨mapValid_keyMapOf _ _ _ h1, mapValid_keyMapOf _ _ _ h2⟩

/-- **C3** — referential completeness: starting from a referentially intact
target (in particular the empty one), both a full load and an incremental
run leave every foreign surrogate key of every `fact_rental`,
`fact_payment`, `bridge_film_actor` and `bridge_film_category` row
pointing at an existing row of its target dimension; a source row whose
key resolution fails is filtered out (full load, bridges) or skipped
(incremental facts) and never persisted. -/
theorem claim_C3_referential_completeness (db : SourceDB) (T : Target)
    (now : Nat) (sched : Schedule) (h : refIntact T) :
    refIntact (fullLoad db T now) ∧ refIntact (incremental db T sched).T :=
  ⟨fullLoad_refIntact db T now h, incremental_refIntact db T sched h⟩

/-- Witness for C3: both commands run on the concrete store from the empty
(trivially intact) target. -/
theorem claim_C3_witness :
    refIntact emptyTarget ∧
    refIntact (fullLoad dbW emptyTarget 100) ∧
    refIntact (incremental dbW emptyTarget schedW1).T :=
  ⟨by decide,
   (claim_C3_referential_completeness dbW emptyTarget 100 schedW1 (by decide)).1,
   (claim_C3_referential_completeness dbW emptyTarget 100 schedW1 (by decide)).2⟩

/-! ## The validation scenario for C9

Two source payments on epoch day 20000 (amounts 5.00 and 0.00, both of
store 1), correctly synchronized into the target; the trailing window
starts at day 19990. -/

def db9 : SourceDB :=
  { actors := [], categories := [], stores := [], customers := [], films := []
    filmActors := [], filmCategories := [], rentals := []
    payments := [⟨1, 20000 * msPerDay + 5, 1, 1, 1, 500, 20000 * msPerDay + 5⟩,
                 ⟨2, 20000 * msPerDay + 6, 1, 1, 1, 0, 20000 * msPerDay + 6⟩] }

def t9 : Target :=
  { dimActor := [], dimCategory := []
    dimStore := [⟨1, 1, ⟨"X", "Y"⟩, 0⟩]
    dimCustomer := [⟨1, 1, ⟨"A", "B", true, "X", "Y"⟩, 0⟩]
    dimFilm := []
    dimDate := [createDimDate (20000 * msPerDay)]
    bridgeFilmActor := [], bridgeFilmCategory := [], factRental := []
    factPayment := [⟨1, 1, dateKeyOfDay 20000, 1, 1, 1, 500⟩,
                    ⟨2, 2, dateKeyOfDay 20000, 1, 1, 1, 0⟩]
    syncState := []
    nextActorKey := 1, nextCategoryKey := 1, nextStoreKey := 2, nextCustomerKey := 2
    nextFilmKey := 1, nextFactRentalKey := 1, nextFactPaymentKey := 3 }

/-- `t9` with the 0.00-amount target payment row deleted. -/
def t9del0 : Target :=
  { t9 with factPayment := [⟨1, 1, dateKeyOfDay 20000, 1, 1, 1, 500⟩] }

/-- `t9` with the 5.00-amount target payment row deleted. -/
def t9del5 : Target :=
  { t9 with factPayment := [⟨2, 2, dateKeyOfDay 20000, 1, 1, 1, 0⟩] }

/-- **C9** counterexample — deleting one in-window target payment row does
*not* in general raise the failure count by exactly 1: with the correctly
synchronized target `validate` reports 0 failures, and after deleting the
5.00-amount row it reports Payment Count FAILED (Source: 2, Target: 1) but
3 failures, because the Payment Total and Revenue-by-Store checks fail
too. -/
theorem claim_C9_counterexample :
    (validate db9 t9 (19990 * msPerDay)).errorsFound = 0 ∧
    (validate db9 t9del5 (19990 * msPerDay)).paymentCountPassed = false ∧
    (validate db9 t9del5 (19990 * msPerDay)).sourcePaymentCount = 2 ∧
    (validate db9 t9del5 (19990 * msPerDay)).targetPaymentCount = 1 ∧
    (validate db9 t9del5 (19990 * msPerDay)).errorsFound = 3 := by
  decide

/-- **C9** amended — deleting one in-window target payment row always makes
`validate` report Payment Count FAILED with a target count lower by one;
the overall failure count rises by exactly 1 when the deletion leaves the
Payment Total and Revenue-by-Store checks unaffected (here: the deleted
amount is 0.00 and its store keeps another in-window row); deletions of
nonzero-amount rows also fail those checks. -/
theorem claim_C9_amended :
    (validate db9 t9 (19990 * msPerDay)).errorsFound = 0 ∧
    (validate db9 t9del0 (19990 * msPerDay)).paymentCountPassed = false ∧
    (validate db9 t9del0 (19990 * msPerDay)).sourcePaymentCount = 2 ∧
    (validate db9 t9del0 (19990 * msPerDay)).targetPaymentCount = 1 ∧
    (validate db9 t9del0 (19990 * msPerDay)).paymentSumPassed = true ∧
    (validate db9 t9del0 (19990 * msPerDay)).rentalCountPassed = true ∧
    (validate db9 t9del0 (19990 * msPerDay)).storeRevenuePassed = true ∧
    (validate db9 t9del0 (19990 * msPerDay)).errorsFound = 1 := by
  decide
